import Mathlib


/-!
Verification of the kytos/of_core OpenFlow controller component.

This file gives a shallow embedding, in Lean 4, of the parts of the
repository that the specification's claims are about:

* `v0x04/utils.py`: the prefix-length/mask byte conversions
  (`mask_to_bytes` / `bytes_to_mask`);
* `flow.py`, `v0x01/flow.py`, `v0x04/flow.py`: the Flow model, its
  dictionary/JSON serialization and the md5-based flow identity;
* `main.py`: version negotiation, the raw-in dispatch loop, the
  features-reply handler and the multipart flow-stats reassembly;
* `v0x04/match_fields*.py`: the OXM TLV codec for match fields and the
  match-field / action factories.

Machine integers are modelled as `Nat` with explicit `% 2 ^ w` where the
Python code relies on fixed width; byte strings are `List Nat` (each
element `< 256`); fallible Python code (raised exceptions) is modelled
with `Option` / explicit error results.  All definitions are executable
and structurally recursive so that concrete runs reduce in the kernel.
-/

set_option maxRecDepth 100000


namespace OfCore


/-! ## Byte-string primitives

`int.to_bytes(length, 'big')`, `int.from_bytes(bytes, 'big')` and
`format(n, 'b')` as used throughout the repository. -/

/-- Python `n.to_bytes(len, 'big')`: big-endian byte list of exactly
`len` bytes.  (The Python call raises `OverflowError` when `n ≥ 256 ^ len`;
callers that can hit that case wrap this in `pyToBytes`.) -/
def toBytesBE : Nat → Nat → List Nat
  | 0, _ => []
  | len + 1, n => toBytesBE len (n / 256) ++ [n % 256]


/-- Python `n.to_bytes(len, 'big')` with the `OverflowError` made explicit:
`none` when the value does not fit. -/
def pyToBytes (len n : Nat) : Option (List Nat) :=
  if n < 256 ^ len then some (toBytesBE len n) else none


/-- Python `int.from_bytes(bytes, 'big')` (an empty byte string gives `0`). -/
def fromBytesBE (bs : List Nat) : Nat :=
  bs.foldl (fun acc b => acc * 256 + b) 0


/-- Python `n.to_bytes(len, 'little')`: little-endian byte list. -/
def toBytesLE : Nat → Nat → List Nat
  | 0, _ => []
  | len + 1, n => n % 256 :: toBytesLE len (n / 256)


/-- Lowercase hex digit. -/
def hexDigit (n : Nat) : Char :=
  if n < 10 then Char.ofNat ('0'.toNat + n) else Char.ofNat ('a'.toNat + n - 10)


/-- Two lowercase hex digits of one byte (used both by `hexdigest` and
by the address codecs). -/
def byteHex (b : Nat) : List Char := [hexDigit (b / 16), hexDigit (b % 16)]


/-- Fuel-driven core of `format(n, 'b')`: most-significant-first binary
digits, no leading zeros.  The fuel argument only makes the recursion
structural; `fuel > n` is always enough. -/
def formatBCore : Nat → Nat → List Char → List Char
  | 0, _, acc => acc
  | fuel + 1, n, acc =>
    let d := if n % 2 = 1 then '1' else '0'
    if n < 2 then d :: acc else formatBCore fuel (n / 2) (d :: acc)


/-- Python `format(n, 'b')`: binary digits of `n`, most significant first,
without leading zeros (`format(0, 'b') = "0"`). -/
def formatB (n : Nat) : List Char := formatBCore (n + 1) n []


/-! ## `v0x04/utils.py`: `mask_to_bytes` and `bytes_to_mask` -/

/-- `v0x04/utils.py` `mask_to_bytes`: sets bits `size-mask .. size-1`
(`for i in range(size-mask, size): bits |= 1 << i`) and serializes the
result on `size // 8` big-endian bytes. -/
def mask_to_bytes (mask size : Nat) : List Nat :=
  let bits := (List.range' (size - mask) (size - (size - mask))).foldl
    (fun bits i => bits ||| (1 <<< i)) 0
  toBytesBE (size / 8) bits


/-- The `for i in range(size)` loop of `bytes_to_bask`: walk the binary
digit string counting leading `'1'`s, stopping at the first other digit;
running past the end of the string is Python's `IndexError`, modelled as
`none`. -/
def maskLoop : List Char → Nat → Nat → Option Nat
  | _, 0, acc => some acc
  | [], _ + 1, _ => none
  | c :: rest, k + 1, acc =>
    if c = '1' then maskLoop rest k (acc + 1) else some acc


/-- `v0x04/utils.py` `bytes_to_mask`: reads the bytes back as a big-endian
integer, renders it with `format(int_mask, 'b')` and counts the leading
ones among the first `size` characters. -/
def bytes_to_mask (tobytes : List Nat) (size : Nat) : Option Nat :=
  maskLoop (formatB (fromBytesBE tobytes)) size 0


/-! ## MD5

`hashlib.md5` as used for flow identity (`flow.py` `FlowBase.id`,
`v0x01/flow.py` `Flow.id`).  Straight RFC 1321 over `Nat` with explicit
reduction modulo `2 ^ 32`; input is a byte list, output the lowercase
hex digest string, exactly as `hexdigest()` renders it. -/

namespace MD5


/-- Per-round left-rotation amounts. -/
def shiftAmounts : List Nat :=
  [7, 12, 17, 22, 7, 12, 17, 22, 7, 12, 17, 22, 7, 12, 17, 22,
   5, 9, 14, 20, 5, 9, 14, 20, 5, 9, 14, 20, 5, 9, 14, 20,
   4, 11, 16, 23, 4, 11, 16, 23, 4, 11, 16, 23, 4, 11, 16, 23,
   6, 10, 15, 21, 6, 10, 15, 21, 6, 10, 15, 21, 6, 10, 15, 21]


/-- Per-round additive constants `floor(abs(sin(i + 1)) * 2 ^ 32)`. -/
def sineTable : List Nat :=
  [0xd76aa478, 0xe8c7b756, 0x242070db, 0xc1bdceee,
   0xf57c0faf, 0x4787c62a, 0xa8304613, 0xfd469501,
   0x698098d8, 0x8b44f7af, 0xffff5bb1, 0x895cd7be,
   0x6b901122, 0xfd987193, 0xa679438e, 0x49b40821,
   0xf61e2562, 0xc040b340, 0x265e5a51, 0xe9b6c7aa,
   0xd62f105d, 0x02441453, 0xd8a1e681, 0xe7d3fbc8,
   0x21e1cde6, 0xc33707d6, 0xf4d50d87, 0x455a14ed,
   0xa9e3e905, 0xfcefa3f8, 0x676f02d9, 0x8d2a4c8a,
   0xfffa3942, 0x8771f681, 0x6d9d6122, 0xfde5380c,
   0xa4beea44, 0x4bdecfa9, 0xf6bb4b60, 0xbebfbc70,
   0x289b7ec6, 0xeaa127fa, 0xd4ef3085, 0x04881d05,
   0xd9d4d039, 0xe6db99e5, 0x1fa27cf8, 0xc4ac5665,
   0xf4292244, 0x432aff97, 0xab9423a7, 0xfc93a039,
   0x655b59c3, 0x8f0ccc92, 0xffeff47d, 0x85845dd1,
   0x6fa87e4f, 0xfe2ce6e0, 0xa3014314, 0x4e0811a1,
   0xf7537e82, 0xbd3af235, 0x2ad7d2bb, 0xeb86d391]


/-- Addition modulo `2 ^ 32`. -/
def add32 (a b : Nat) : Nat := (a + b) % 4294967296


/-- Bitwise complement on 32 bits. -/
def not32 (a : Nat) : Nat := a ^^^ 0xffffffff


/-- Left rotation of a 32-bit word. -/
def rotl32 (x c : Nat) : Nat := ((x <<< c) ||| (x >>> (32 - c))) % 4294967296


/-- The 16 message words of one 64-byte chunk, little-endian. -/
def chunkWords (chunk : List Nat) : List Nat :=
  (List.range 16).map fun j =>
    fromBytesBE ((chunk.drop (4 * j)).take 4).reverse


/-- One of the 64 rounds: `i` is the round index, `m` the chunk's words,
`(a, b, c, d)` the running state. -/
def md5Round (m : List Nat) (st : Nat × Nat × Nat × Nat) (i : Nat) :
    Nat × Nat × Nat × Nat :=
  let (a, b, c, d) := st
  let (f, g) :=
    if i < 16 then ((b &&& c) ||| (not32 b &&& d), i)
    else if i < 32 then ((d &&& b) ||| (not32 d &&& c), (5 * i + 1) % 16)
    else if i < 48 then (b ^^^ c ^^^ d, (3 * i + 5) % 16)
    else (c ^^^ (b ||| not32 d), (7 * i) % 16)
  let f := add32 (add32 (add32 f a) (sineTable.getD i 0)) (m.getD g 0)
  (d, add32 b (rotl32 f (shiftAmounts.getD i 0)), b, c)


/-- Process one 64-byte chunk, updating the four state words. -/
def md5Chunk (st : Nat × Nat × Nat × Nat) (chunk : List Nat) :
    Nat × Nat × Nat × Nat :=
  let m := chunkWords chunk
  let (a, b, c, d) := (List.range 64).foldl (md5Round m) st
  let (a0, b0, c0, d0) := st
  (add32 a0 a, add32 b0 b, add32 c0 c, add32 d0 d)


/-- RFC 1321 padding: `0x80`, zeros to 56 mod 64, then the bit length on
8 little-endian bytes. -/
def padMessage (msg : List Nat) : List Nat :=
  let len := msg.length
  let zeros := (56 + 64 - (len + 1) % 64) % 64
  msg ++ [0x80] ++ List.replicate zeros 0 ++ toBytesLE 8 (8 * len % 2 ^ 64)


/-- Split a padded message (length a multiple of 64) into 64-byte chunks;
the first argument is the chunk count, making the recursion structural. -/
def chunksOf64 : Nat → List Nat → List (List Nat)
  | 0, _ => []
  | k + 1, l => l.take 64 :: chunksOf64 k (l.drop 64)


/-- The four state words after processing the whole padded message. -/
def md5State (msg : List Nat) : Nat × Nat × Nat × Nat :=
  let padded := padMessage msg
  (chunksOf64 (padded.length / 64) padded).foldl md5Chunk
    (0x67452301, 0xefcdab89, 0x98badcfe, 0x10325476)


/-- `hashlib.md5(msg).hexdigest()`: the 128-bit digest of a byte list,
rendered as 32 lowercase hex characters (each state word serialized
little-endian). -/
def md5Hex (msg : List Nat) : String :=
  let (a, b, c, d) := md5State msg
  ⟨(toBytesLE 4 a ++ toBytesLE 4 b ++ toBytesLE 4 c ++ toBytesLE 4 d).flatMap byteHex⟩


end MD5


/-- UTF-8 encoding of a string restricted to ASCII content (every string
hashed or serialized by this NApp is plain ASCII), so each character is
one byte equal to its code point. -/
def strBytes (s : String) : List Nat := s.toList.map Char.toNat


/-- `hashlib.md5(s.encode('utf-8')).hexdigest()` for an ASCII string. -/
def md5HexStr (s : String) : String := MD5.md5Hex (strBytes s)


/-! ## Serialization to JSON and to Python `str()`

`flow.py` serializes flows with `json.dumps(self.as_dict(include_id),
sort_keys=sort_keys)`; `v0x01/flow.py` hashes `str(field)` for each of a
list of fields.  The dictionaries that ever reach those calls have a
fixed, shallow shape: scalar values, the match dictionary (scalars), and
the action list (a list of scalar dictionaries); the value universe
below mirrors exactly that shape.  All string content handled by the
NApp is plain ASCII without quotes or backslashes, so string escaping is
the identity. -/

/-- A scalar dictionary value: a Python `str` or `int`. -/
inductive FVal
  | s (v : String)
  | i (v : Int)
deriving DecidableEq


/-- A value of the flow dictionary: a scalar, a flat dictionary (the
match or stats field) or a list of flat dictionaries (the actions). -/
inductive JVal
  | s (v : String)
  | i (v : Int)
  | dict (es : List (String × FVal))
  | dlist (ds : List (List (String × FVal)))
deriving DecidableEq


/-- JSON string literal (quotes around the ASCII content; the values this
NApp serializes contain no character that `json.dumps` escapes). -/
def jsonStr (s : String) : String := "\"" ++ s ++ "\""


/-- JSON rendering of a scalar. -/
def dumpFVal : FVal → String
  | .s v => jsonStr v
  | .i v => toString v


/-- Python string `<`: lexicographic comparison by code point (a strict
prefix sorts first). -/
def charListLt : List Char → List Char → Bool
  | [], [] => false
  | [], _ :: _ => true
  | _ :: _, [] => false
  | a :: as, b :: bs =>
    if a.toNat < b.toNat then true
    else if b.toNat < a.toNat then false
    else charListLt as bs


/-- Python `a < b` on strings. -/
def strLt (a b : String) : Bool := charListLt a.toList b.toList


/-- One insertion step of sorting by key. -/
def insertSorted (e : String × String) : List (String × String) → List (String × String)
  | [] => [e]
  | x :: xs => if strLt x.1 e.1 then x :: insertSorted e xs else e :: x :: xs


/-- Python `sorted` by dictionary key (keys of a Python dictionary are
unique, so stability is irrelevant). -/
def sortEntries : List (String × String) → List (String × String)
  | [] => []
  | e :: es => insertSorted e (sortEntries es)


/-- Serialize dictionary entries whose values are already rendered,
with `json.dumps`'s default `", "` / `": "` separators, sorting the keys
when `sort_keys=True`. -/
def dumpDictEntries (sortKeys : Bool) (es : List (String × String)) : String :=
  let es := if sortKeys then sortEntries es else es
  "\x7b" ++ String.intercalate ", " (es.map fun e => jsonStr e.1 ++ ": " ++ e.2) ++ "\x7d"


/-- `json.dumps` of a flat (scalar-valued) dictionary. -/
def dumpFlatDict (sortKeys : Bool) (es : List (String × FVal)) : String :=
  dumpDictEntries sortKeys (es.map fun e => (e.1, dumpFVal e.2))


/-- `json.dumps` of a nested value. -/
def dumpJVal (sortKeys : Bool) : JVal → String
  | .s v => jsonStr v
  | .i v => toString v
  | .dict es => dumpFlatDict sortKeys es
  | .dlist ds => "[" ++ String.intercalate ", " (ds.map (dumpFlatDict sortKeys)) ++ "]"


/-- `json.dumps(d, sort_keys=sort_keys)` for the flow dictionary. -/
def jsonDumps (sortKeys : Bool) (es : List (String × JVal)) : String :=
  dumpDictEntries sortKeys (es.map fun e => (e.1, dumpJVal sortKeys e.2))


/-- Python `repr` of one of the NApp's ASCII strings (single quotes). -/
def pyReprStr (s : String) : String := "'" ++ s ++ "'"


/-- Python `str`/`repr` of a scalar value inside a container. -/
def pyStrFVal : FVal → String
  | .s v => pyReprStr v
  | .i v => toString v


/-- Python `str()` of a flat dictionary: insertion order, `repr` of keys
and values. -/
def pyStrDict (es : List (String × FVal)) : String :=
  "\x7b" ++ String.intercalate ", " (es.map fun e => pyReprStr e.1 ++ ": " ++ pyStrFVal e.2) ++ "\x7d"


/-- Python `str()` of a list of flat dictionaries. -/
def pyStrDictList (ds : List (List (String × FVal))) : String :=
  "[" ++ String.intercalate ", " (ds.map pyStrDict) ++ "]"


/-! ## The Flow model (`flow.py`, `v0x01/flow.py`, `v0x04/flow.py`)

A `Match` is represented by its `as_dict()` output — the ordered list of
the fields that are not `None`, in `MatchBase.__init__` insertion order;
a `Stats` snapshot by its four optional counters. -/

/-- `flow.py` `FlowStats`: the four statistics counters, `None` when not
yet reported. -/
structure FlowStats where
  byte_count : Option Int
  duration_sec : Option Int
  duration_nsec : Option Int
  packet_count : Option Int
deriving DecidableEq


/-- `Stats.as_dict`: the non-`None` counters in `__init__` insertion
order. -/
def FlowStats.as_dict (st : FlowStats) : List (String × FVal) :=
  ([("byte_count", st.byte_count), ("duration_sec", st.duration_sec),
    ("duration_nsec", st.duration_nsec), ("packet_count", st.packet_count)]
    : List (String × Option Int)).filterMap
    fun e => e.2.map fun n => (e.1, FVal.i n)


/-- `v0x04/flow.py` actions (`ActionOutput`, `ActionSetVlan`,
`ActionPushVlan`, `ActionPopVlan`). -/
inductive Action04
  | output (port : Int)
  | set_vlan (vlan_id : Int)
  | push_vlan (tag_type : String)
  | pop_vlan
deriving DecidableEq


/-- `ActionBase.as_dict` is `vars(self)`: attributes in `__init__`
insertion order. -/
def Action04.as_dict : Action04 → List (String × FVal)
  | .output p => [("port", .i p), ("action_type", .s "output")]
  | .set_vlan v => [("vlan_id", .i v), ("action_type", .s "set_vlan")]
  | .push_vlan t => [("action_type", .s "push_vlan"), ("tag_type", .s t)]
  | .pop_vlan => [("action_type", .s "pop_vlan")]


/-- `v0x01/flow.py` actions (`ActionOutput`, `ActionSetVlan`). -/
inductive Action01
  | output (port : Int)
  | set_vlan (vlan_id : Int)
deriving DecidableEq


/-- `v0x01` `ActionOutput.as_dict` / `ActionSetVlan.as_dict` build their
dictionaries literally, `action_type` first. -/
def Action01.as_dict : Action01 → List (String × FVal)
  | .output p => [("action_type", .s "output"), ("port", .i p)]
  | .set_vlan v => [("action_type", .s "set_vlan"), ("vlan_id", .i v)]


/-- A `v0x04` `Flow`: the `FlowBase` attributes plus `cookie_mask`
(which `as_dict` does not serialize).  `switch_id` is `self.switch.id`. -/
structure Flow04 where
  switch_id : String
  table_id : Int
  matchDict : List (String × FVal)
  priority : Int
  idle_timeout : Int
  hard_timeout : Int
  cookie : Int
  actions : List Action04
  cookie_mask : Int
  stats : FlowStats
deriving DecidableEq


/-- A `v0x01` `Flow`. -/
structure Flow01 where
  switch_id : String
  table_id : Int
  matchDict : List (String × FVal)
  priority : Int
  idle_timeout : Int
  hard_timeout : Int
  cookie : Int
  actions : List Action01
  stats : FlowStats
deriving DecidableEq


/-- The `include_id=False` instance of `FlowBase.as_dict` (split out
because Python breaks the hash recursion exactly this way: the id is the
hash of this dictionary). -/
def Flow04.as_dict_noid (f : Flow04) : List (String × JVal) :=
  [("switch", .s f.switch_id), ("table_id", .i f.table_id),
   ("match", .dict f.matchDict), ("priority", .i f.priority),
   ("idle_timeout", .i f.idle_timeout), ("hard_timeout", .i f.hard_timeout),
   ("cookie", .i f.cookie), ("actions", .dlist (f.actions.map Action04.as_dict))]


/-- `FlowBase.as_json(sort_keys, include_id=False)`. -/
def Flow04.as_json_noid (f : Flow04) (sortKeys : Bool) : String :=
  jsonDumps sortKeys f.as_dict_noid


/-- `FlowBase.id`: md5 of `as_json(sort_keys=True, include_id=False)`. -/
def Flow04.id (f : Flow04) : String := md5HexStr (f.as_json_noid true)


/-- `FlowBase.as_dict(include_id)`: the id and the statistics snapshot
are appended only when `include_id` is true. -/
def Flow04.as_dict (f : Flow04) (include_id : Bool) : List (String × JVal) :=
  f.as_dict_noid ++
    if include_id then [("id", .s f.id), ("stats", .dict f.stats.as_dict)] else []


/-- `FlowBase.as_dict` as inherited by the `v0x01` `Flow` (the override
only rewrites `actions` with the same value). -/
def Flow01.as_dict_noid (f : Flow01) : List (String × JVal) :=
  [("switch", .s f.switch_id), ("table_id", .i f.table_id),
   ("match", .dict f.matchDict), ("priority", .i f.priority),
   ("idle_timeout", .i f.idle_timeout), ("hard_timeout", .i f.hard_timeout),
   ("cookie", .i f.cookie), ("actions", .dlist (f.actions.map Action01.as_dict))]


/-- `v0x01/flow.py` `Flow.id`: md5 of the concatenation of `str(field)`
for `[switch.id, table_id, match, priority, idle_timeout, hard_timeout,
cookie, actions]` (`md5.update` per field is hashing the concatenation). -/
def Flow01.id (f : Flow01) : String :=
  md5HexStr (String.join
    [f.switch_id, toString f.table_id, pyStrDict f.matchDict,
     toString f.priority, toString f.idle_timeout, toString f.hard_timeout,
     toString f.cookie, pyStrDictList (f.actions.map Action01.as_dict)])


/-- The map-without-id-and-stats of a `v0x01` flow (conceptually
`FlowBase.as_dict(include_id)`; the claim's hash formula is stated over
this map). -/
def Flow01.as_dict (f : Flow01) (include_id : Bool) : List (String × JVal) :=
  f.as_dict_noid ++
    if include_id then [("id", .s f.id), ("stats", .dict f.stats.as_dict)] else []


/-- Modelled from the spec (§3 Identity, §6 Persisted representation):
"the hash is a 128-bit digest rendered as a lowercase hex string,
computed over the sorted-key serialization of the map-without-id-and-stats",
with "the switch identifier as a raw field in that map".  The map is
written here directly in sorted-key order. -/
def specFlowId04 (f : Flow04) : String :=
  md5HexStr (jsonDumps true
    [("actions", .dlist (f.actions.map Action04.as_dict)), ("cookie", .i f.cookie),
     ("hard_timeout", .i f.hard_timeout), ("idle_timeout", .i f.idle_timeout),
     ("match", .dict f.matchDict), ("priority", .i f.priority),
     ("switch", .s f.switch_id), ("table_id", .i f.table_id)])


/-- Is every character a lowercase hex digit? -/
def isLowerHex (s : String) : Bool :=
  s.toList.all fun c => "0123456789abcdef".toList.contains c


/-- All non-statistics fields of two `v0x04` flows agree (only the
`stats` snapshot may differ). -/
def Flow04.sameNonStats (f g : Flow04) : Prop :=
  f.switch_id = g.switch_id ∧ f.table_id = g.table_id ∧
  f.matchDict = g.matchDict ∧ f.priority = g.priority ∧
  f.idle_timeout = g.idle_timeout ∧ f.hard_timeout = g.hard_timeout ∧
  f.cookie = g.cookie ∧ f.actions = g.actions ∧ f.cookie_mask = g.cookie_mask


/-- All non-statistics fields of two `v0x01` flows agree. -/
def Flow01.sameNonStats (f g : Flow01) : Prop :=
  f.switch_id = g.switch_id ∧ f.table_id = g.table_id ∧
  f.matchDict = g.matchDict ∧ f.priority = g.priority ∧
  f.idle_timeout = g.idle_timeout ∧ f.hard_timeout = g.hard_timeout ∧
  f.cookie = g.cookie ∧ f.actions = g.actions


/-! ### C1: flow identity -/

/-- The default-constructed `v0x01` flow used as the explicit input of
the C1 counterexample (constructor defaults of `FlowBase.__init__`,
switch id as in the repository's tests). -/
def flowC1 : Flow01 :=
  { switch_id := "00:00:00:00:00:00:00:01", table_id := 0, matchDict := [],
    priority := 32768, idle_timeout := 0, hard_timeout := 0, cookie := 0,
    actions := [], stats := ⟨none, none, none, none⟩ }


/-! ## Connection state and version negotiation (`main.py`)

The hosting runtime's connection object (`kytos.core.connection`) is an
external collaborator.  Modelled from the spec (§3 Connection,
ProtocolState): a connection exposes a coarse state (used by `is_new`,
`is_during_setup`, `is_alive`, `close`, `set_setup_state`,
`set_established_state`), a protocol-state string, a negotiated version
and the remaining/unprocessed data buffer.  Frames are abstracted to
already-sliced packets (`of_slicer` lives in the module `utils.py`,
which is outside these sources; §4.1 specifies it as a pure splitter, so
the dispatch loop below is fed whole frames and the byte-level remainder
is empty). -/

/-- `kytos.core.connection.ConnectionState` (modelled from the spec):
`close()` moves to `finished`, failed negotiation to `failed`;
`is_alive` is false in both. -/
inductive CState
  | new
  | setup
  | established
  | failed
  | finished
deriving DecidableEq


/-- The protocol-state strings assigned by `main.py`. -/
inductive PState
  | sending_features
  | waiting_features_reply
  | handshake_complete
  | hello_failed
deriving DecidableEq


/-- Message types distinguished by the dispatch loop. -/
inductive MsgType
  | ofpt_hello
  | ofpt_features_reply
  | ofpt_other
deriving DecidableEq


/-- One complete frame, by what unpacking yields: a parseable hello
(with its optional version bitmap), some other parseable message, or a
frame that raises `UnpackException`. -/
inductive Packet
  | hello (versions : List Nat) (headerVersion : Nat) (xid : Nat)
  | msg (mtype : MsgType) (xid : Nat)
  | malformed
deriving DecidableEq


/-- The header message type of a packet. -/
def Packet.mtype : Packet → MsgType
  | .hello _ _ _ => .ofpt_hello
  | .msg t _ => t
  | .malformed => .ofpt_other


/-- Everything `main.py` hands to the outside world: events put on the
app buffer and messages emitted towards the switch. -/
inductive Emission
  | helloFailedEvent
  | errorMsgHelloFailedIncompatible (pyofVersion : Nat) (xid : Nat)
  | helloOut (version : Nat)
  | featuresRequest (version : Nat)
  | messageIn (p : Packet)
  | descRequest
  | portDescRequest
  | setConfig
deriving DecidableEq


/-- The connection, as far as `main.py` reads and writes it. -/
structure Conn where
  connState : CState
  protoState : Option PState
  protoVersion : Option Nat
  remaining : List Packet
deriving DecidableEq


/-- `connection.is_alive()`: not failed and not closed. -/
def Conn.isAlive (c : Conn) : Bool :=
  c.connState ≠ CState.failed ∧ c.connState ≠ CState.finished


/-- `connection.close()`. -/
def Conn.close (c : Conn) : Conn := { c with connState := .finished }


/-- Modelled from the spec: `settings.OPENFLOW_VERSIONS` (`settings.py`
is outside these sources); §8 fixes the supported versions to `{1, 4}`. -/
def OPENFLOW_VERSIONS : List Nat := [1, 4]


/-- Modelled from the spec: `settings.SEND_SET_CONFIG` (§6 lists
SetConfig among the produced messages, so the flag defaults to on). -/
def SEND_SET_CONFIG : Bool := true


/-- Python `max(list)`: `None` stands for the `ValueError` raised on an
empty list (`_get_version_from_bitmask` catches exactly that). -/
def pyMax : List Nat → Option Nat
  | [] => none
  | x :: xs => some (xs.foldl Nat.max x)


/-- `Main._get_version_from_bitmask`: the Python `max` over the versions
of the bitmap that are supported, `None` when the comprehension is
empty. -/
def get_version_from_bitmask (message_versions : List Nat) : Option Nat :=
  pyMax (message_versions.filter fun v => decide (v ∈ OPENFLOW_VERSIONS))


/-- `Main._get_version_from_header`: the minimum of the peer's header
version and the highest supported version, accepted only if itself
supported. -/
def get_version_from_header (message_version : Nat) : Option Nat :=
  let version := min message_version ((pyMax OPENFLOW_VERSIONS).getD 0)
  if version ∈ OPENFLOW_VERSIONS then some version else none


/-- The version-selection step of `Main._negotiate`: the bitmap rule
when the hello carries a non-empty bitmap, the header rule otherwise. -/
def selectVersion (versions : List Nat) (headerVersion : Nat) : Option Nat :=
  if versions.isEmpty then get_version_from_header headerVersion
  else get_version_from_bitmask versions


/-- `Main.fail_negotiation`: set the protocol state, raise the
`hello_failed` event, emit the hello-failed/incompatible error message
(built with the highest supported pyof version, sent only while the
connection is alive). -/
def fail_negotiation (c : Conn) (helloXid : Nat) : Conn × List Emission :=
  let c2 := { c with protoState := some PState.hello_failed }
  (c2, [Emission.helloFailedEvent] ++
    if c2.isAlive then
      [Emission.errorMsgHelloFailedIncompatible ((pyMax OPENFLOW_VERSIONS).getD 0) helloXid]
    else [])


/-- `Main._negotiate`: select a version; on failure run
`fail_negotiation` and signal the raised `NegotiationException` with
`false`; on success send the hello back, record the version, move to
`sending_features` and send the features request. -/
def negotiate (c : Conn) (versions : List Nat) (headerVersion xid : Nat) :
    (Conn × List Emission) × Bool :=
  match selectVersion versions headerVersion with
  | none => (fail_negotiation c xid, false)
  | some v =>
    let c2 := { c with protoVersion := some v, protoState := some PState.sending_features }
    ((c2, [Emission.helloOut v] ++
      if c2.isAlive then [Emission.featuresRequest v] else []), true)


/-- The `for packet in packets` loop of `Main.handle_raw_in`,
accumulating the unprocessed packets and the emissions.  An early
`return` (dead connection, negotiation failure, unpack failure) leaves
the remaining buffer as the top of `handle_raw_in` set it. -/
def rawInLoop : Conn → List Packet → List Packet → List Emission → Conn × List Emission
  | c, [], unproc, ems => ({ c with remaining := unproc ++ c.remaining }, ems)
  | c, p :: rest, unproc, ems =>
    if ¬ c.isAlive then (c, ems)
    else if c.connState = CState.new then
      match p with
      | .hello vs hv xid =>
        match negotiate c vs hv xid with
        | ((c2, nems), true) =>
          rawInLoop { c2 with connState := .setup } rest unproc (ems ++ nems)
        | ((c2, nems), false) =>
          ({ c2.close with
              protoState := some PState.hello_failed,
              connState := .failed }, ems ++ nems)
      | _ =>
        ({ c.close with
            protoState := some PState.hello_failed,
            connState := .failed }, ems)
    else
      match p with
      | .malformed => (c.close, ems)
      | p' =>
        if c.connState = CState.setup ∧
            ¬(p'.mtype = MsgType.ofpt_features_reply ∧
              c.protoState = some PState.waiting_features_reply) then
          rawInLoop c rest (unproc ++ [p']) ems
        else
          rawInLoop c rest unproc
            (ems ++ if c.isAlive then [Emission.messageIn p'] else [])


/-- `Main.handle_raw_in` over already-sliced frames: concatenate the
remaining buffer with the new data, reset the remainder, and run the
dispatch loop (`if not packets: return`). -/
def handleRawIn (c : Conn) (newPackets : List Packet) : Conn × List Emission :=
  let data := c.remaining ++ newPackets
  let c2 := { c with remaining := ([] : List Packet) }
  if data.isEmpty then (c2, []) else rawInLoop c2 data [] []


/-- `Main.handle_features_reply` specialised to the `v0x04` utils: the
version utils handler always requests the port description
(`send_port_request`); only in setup with state `waiting_features_reply`
does the handshake complete — protocol state `handshake_complete`,
connection established, description request (plus SetConfig when
enabled). -/
def handle_features_reply04 (c : Conn) : Conn × List Emission :=
  let ems := [Emission.portDescRequest]
  if c.connState = CState.setup ∧ c.protoState = some PState.waiting_features_reply then
    ({ c with protoState := some PState.handshake_complete, connState := .established },
     ems ++ [Emission.descRequest] ++ if SEND_SET_CONFIG then [Emission.setConfig] else [])
  else (c, ems)


/-- `Main.handle_features_request_sent`: confirm the request went out
before waiting for the reply. -/
def handle_features_request_sent (c : Conn) : Conn :=
  if c.protoState = some PState.sending_features then
    { c with protoState := some PState.waiting_features_reply }
  else c


/-- The condition under which `handle_features_reply` completes the
handshake. -/
def frTrigger (c : Conn) : Prop :=
  c.connState = CState.setup ∧ c.protoState = some PState.waiting_features_reply


/-! ## Multipart flow-stats reassembly (`main.py`)

`Main` keeps two per-switch dictionaries (`_multipart_replies_xids`,
`_multipart_replies_flows`) and writes the reassembled list into
`switch.flows`.  All three are modelled as maps keyed by the switch id;
a fragment carries its header xid, its flags word and its already
converted flow list (the per-flow conversion `Flow04.from_of_flow_stats`
is irrelevant to the bookkeeping, so the flow type is abstract). -/

/-- The reassembly state: outstanding request xid, accumulated flows and
authoritative flow list, per switch id. -/
structure MPState (α : Type) where
  replies_xids : String → Option Nat
  replies_flows : String → Option (List α)
  switch_flows : String → List α


/-- One `ofpt_multipart_reply` flow-stats fragment. -/
structure MPReply (α : Type) where
  xid : Nat
  flags : Nat
  body : List α


/-- `Main._is_multipart_reply_ours`: the switch has a recorded xid and
it equals the fragment's. -/
def is_multipart_reply_ours {α : Type} (st : MPState α) (r : MPReply α)
    (swid : String) : Bool :=
  match st.replies_xids swid with
  | some sent => sent == r.xid
  | none => false


/-- `Main._update_switch_flows`: install the accumulated list as the
switch's flow list and delete both bookkeeping entries for that switch
(the accumulator entry is always present here, having just been filled
by the caller). -/
def update_switch_flows {α : Type} (st : MPState α) (swid : String) : MPState α :=
  { replies_xids := fun s => if s = swid then none else st.replies_xids s,
    replies_flows := fun s => if s = swid then none else st.replies_flows s,
    switch_flows := fun s =>
      if s = swid then (st.replies_flows swid).getD [] else st.switch_flows s }


/-- `Main._handle_multipart_flow_stats`: ignore fragments that are not
ours; otherwise append the fragment's flows to the accumulator
(`setdefault` + `extend`) and, when the flags word is even (the
more-replies bit is clear), finalize. -/
def handle_multipart_flow_stats {α : Type} (st : MPState α) (r : MPReply α)
    (swid : String) : MPState α :=
  if is_multipart_reply_ours st r swid then
    let all_flows := (st.replies_flows swid).getD [] ++ r.body
    let st2 : MPState α :=
      { st with
          replies_flows := fun s =>
            if s = swid then some all_flows else st.replies_flows s }
    if r.flags % 2 == 0 then update_switch_flows st2 swid else st2
  else st


/-- Deliver a list of fragments to one switch, in arrival order. -/
def mpRun {α : Type} (st : MPState α) (frags : List (MPReply α)) (swid : String) :
    MPState α :=
  frags.foldl (fun s f => handle_multipart_flow_stats s f swid) st


/-! ## Python string builtins at the character level

The match-field codec (`v0x04/match_fields*.py`) manipulates its values
with `str.split`, `str.upper`, `int(...)`, `int(..., 16)` and f-string
formatting of integers.  These builtins (and the pyof address classes,
which the spec treats as an external, correct codec library) are
modelled here over `List Char`. -/

/-- Python `str.split(sep)` for a one-character separator
(`"".split(sep) = ['']`, `"/".split('/') = ['', '']`). -/
def splitChar (sep : Char) : List Char → List (List Char)
  | [] => [[]]
  | c :: rest =>
    if c = sep then [] :: splitChar sep rest
    else
      match splitChar sep rest with
      | t :: ts => (c :: t) :: ts
      | [] => [[c]]


/-- Python `sep.join(tokens)` for a one-character separator. -/
def joinChar (sep : Char) : List (List Char) → List Char
  | [] => []
  | [t] => t
  | t :: ts => t ++ sep :: joinChar sep ts


/-- Decimal digit value of a character, if it is a digit. -/
def digitVal (c : Char) : Option Nat :=
  if c.isDigit then some (c.toNat - '0'.toNat) else none


/-- The digit-folding loop of Python `int(s)`. -/
def decFold : List Char → Nat → Option Nat
  | [], acc => some acc
  | c :: rest, acc =>
    match digitVal c with
    | some d => decFold rest (acc * 10 + d)
    | none => none


/-- Python `int(s)` on a non-negative decimal literal (`ValueError`,
i.e. `none`, on anything else; the NApp's numeric field values are
canonical non-negative decimals). -/
def pyIntOfChars (cs : List Char) : Option Nat :=
  if cs.isEmpty then none else decFold cs 0


/-- Fuel-driven core of the decimal rendering of a natural number (the
fuel only makes the recursion structural; `fuel > n` always suffices). -/
def fuelDecCore : Nat → Nat → List Char → List Char
  | 0, _, acc => acc
  | fuel + 1, n, acc =>
    let d := Char.ofNat ('0'.toNat + n % 10)
    if n < 10 then d :: acc else fuelDecCore fuel (n / 10) (d :: acc)


/-- Python `str(n)` / f-string rendering of a non-negative integer:
decimal digits, most significant first. -/
def natDecChars (n : Nat) : List Char := fuelDecCore (n + 1) n []


/-- Python `str(n)` as a `String`. -/
def natDecStr (n : Nat) : String := ⟨natDecChars n⟩


/-- Hex digit value of a character (both cases), as `int(c, 16)` sees
it. -/
def hexVal (c : Char) : Option Nat :=
  if c.isDigit then some (c.toNat - '0'.toNat)
  else if 'a' ≤ c ∧ c ≤ 'f' then some (c.toNat - 'a'.toNat + 10)
  else if 'A' ≤ c ∧ c ≤ 'F' then some (c.toNat - 'A'.toNat + 10)
  else none


/-- The digit-folding loop of Python `int(s, 16)`. -/
def hexFold : List Char → Nat → Option Nat
  | [], acc => some acc
  | c :: rest, acc =>
    match hexVal c with
    | some d => hexFold rest (acc * 16 + d)
    | none => none


/-- Python `int(s, 16)` on a hex literal without prefix or sign. -/
def pyHexOfChars (cs : List Char) : Option Nat :=
  if cs.isEmpty then none else hexFold cs 0


/-! ## The OXM TLV codec (`v0x04/match_fields.py`, `match_fields_ipv6.py`)

A match-field value is a Python `int` or `str` (`MVal`); a TLV carries
the `OxmOfbMatchField` identifier, the has-mask flag and the value
bytes.  The pyof address classes (`HWAddress`, `IPAddress`,
`IPv6Address`) are the external codec library the spec assumes correct;
they are modelled from the spec here: colon-separated lowercase hex
bytes for MAC addresses, dotted decimal for IPv4, colon-separated hex
groups (uncompressed) for IPv6, each accepting an optional `/netmask`
suffix for the IP classes.  Encoders return `none` where the Python
code would raise (`ValueError` on a malformed literal, `OverflowError`
on `to_bytes`, `struct.error` on pack). -/

/-- A Python match-field value: `int` (the NApp's values are
non-negative) or `str`. -/
inductive MVal
  | i (n : Nat)
  | s (v : String)
deriving DecidableEq


/-- A pyof `OxmTLV`: field identifier (`OxmOfbMatchField` value),
has-mask flag, value bytes. -/
structure OxmTLV where
  oxm_field : Nat
  oxm_hasmask : Bool
  oxm_value : List Nat
deriving DecidableEq


/-- Python `int(self.value)`: identity on an `int`, decimal parse on a
`str`, `ValueError` (`none`) otherwise. -/
def pyInt : MVal → Option Nat
  | .i n => some n
  | .s v => pyIntOfChars v.toList


/-- The `OxmOfbMatchField` identifiers (pyof enum, OpenFlow 1.3). -/
def OXM_OFB : String → Nat
  | "in_port" => 0 | "in_phy_port" => 1 | "metadata" => 2
  | "dl_dst" => 3 | "dl_src" => 4 | "dl_type" => 5
  | "dl_vlan" => 6 | "dl_vlan_pcp" => 7 | "ip_dscp" => 8
  | "ip_ecn" => 9 | "nw_proto" => 10 | "nw_src" => 11
  | "nw_dst" => 12 | "tp_src" => 13 | "tp_dst" => 14
  | "udp_src" => 15 | "udp_dst" => 16 | "sctp_src" => 17
  | "sctp_dst" => 18 | "icmpv4_type" => 19 | "icmpv4_code" => 20
  | "arp_op" => 21 | "arp_spa" => 22 | "arp_tpa" => 23
  | "arp_sha" => 24 | "arp_tha" => 25 | "ipv6_src" => 26
  | "ipv6_dst" => 27 | "ipv6_flabel" => 28 | "icmpv6_type" => 29
  | "icmpv6_code" => 30 | "nd_tar" => 31 | "nd_sll" => 32
  | "nd_tll" => 33 | "mpls_lab" => 34 | "mpls_tc" => 35
  | "mpls_bos" => 36 | "pbb_isid" => 37 | "tun_id" => 38
  | "v6_hdr" => 39 | _ => 1000


/-- The encoder shared by the plain integer fields
(`value_bytes = self.value.to_bytes(width, 'big')`; an `int` is
required, `to_bytes` raises on overflow). -/
def intToTlv (field width : Nat) : MVal → Option OxmTLV
  | .i n => (pyToBytes width n).map fun bs => ⟨field, false, bs⟩
  | .s _ => none


/-- The decoder shared by the plain integer fields
(`int.from_bytes(tlv.oxm_value, 'big')`). -/
def intFromTlv (tlv : OxmTLV) : MVal := .i (fromBytesBE tlv.oxm_value)


/-- The encoder shared by the maskable integer fields (`metadata`,
`tun_id`, `ipv6_flabel`, `pbb_isid`, `v6_hdr`): try `int(value)`; on
`ValueError` split on `'/'` into value and mask, set the has-mask flag,
and append the mask bytes only when the mask is non-zero. -/
def maskedIntToTlv (field width : Nat) (v : MVal) : Option OxmTLV :=
  match pyInt v with
  | some value => (pyToBytes width value).map fun bs => ⟨field, false, bs⟩
  | none =>
    match v with
    | .i _ => none
    | .s str =>
      match splitChar '/' str.toList with
      | [a, b] => do
        let value ← pyIntOfChars a
        let mask ← pyIntOfChars b
        let vb ← pyToBytes width value
        if mask ≠ 0 then do
          let mb ← pyToBytes width mask
          pure ⟨field, true, vb ++ mb⟩
        else pure ⟨field, true, vb⟩
      | _ => none


/-- The decoder shared by the maskable integer fields: the first `width`
bytes are the value; with the has-mask flag the rest are the mask and
the result is the `f'{value}/{mask}'` string. -/
def maskedIntFromTlv (width : Nat) (tlv : OxmTLV) : MVal :=
  let value := fromBytesBE (tlv.oxm_value.take width)
  if tlv.oxm_hasmask then
    .s (natDecStr value ++ "/" ++ natDecStr (fromBytesBE (tlv.oxm_value.drop width)))
  else .i value


/-- `VlanId.OFPVID_PRESENT`. -/
def OFPVID_PRESENT : Nat := 0x1000


/-- `MatchDLVLAN.as_of_tlv`: like a maskable integer of width 2, but the
present bit is OR-ed into the value (and into a non-zero mask). -/
def MatchDLVLAN_as_of_tlv (v : MVal) : Option OxmTLV :=
  match pyInt v with
  | some value =>
    (pyToBytes 2 (value ||| OFPVID_PRESENT)).map fun bs => ⟨OXM_OFB "dl_vlan", false, bs⟩
  | none =>
    match v with
    | .i _ => none
    | .s str =>
      match splitChar '/' str.toList with
      | [a, b] => do
        let value ← pyIntOfChars a
        let mask ← pyIntOfChars b
        let vb ← pyToBytes 2 (value ||| OFPVID_PRESENT)
        if mask ≠ 0 then do
          let mb ← pyToBytes 2 (mask ||| OFPVID_PRESENT)
          pure ⟨OXM_OFB "dl_vlan", true, vb ++ mb⟩
        else pure ⟨OXM_OFB "dl_vlan", true, vb⟩
      | _ => none


/-- `MatchDLVLAN.from_of_tlv`: the low 12 bits of value (and mask, when
present — masked results are `f'{vlan_id}/{vlan_mask}'`). -/
def MatchDLVLAN_from_of_tlv (tlv : OxmTLV) : MVal :=
  let vlan_id := fromBytesBE (tlv.oxm_value.take 2) &&& 4095
  if tlv.oxm_hasmask then
    .s (natDecStr vlan_id ++ "/" ++
      natDecStr (fromBytesBE (tlv.oxm_value.drop 2) &&& 4095))
  else .i vlan_id


/-- A MAC address rendered the way `str(HWAddress)` renders it after
unpacking: six lowercase hex bytes joined with `':'`. -/
def macChars (bs : List Nat) : List Char := joinChar ':' (bs.map byteHex)


/-- `str(HWAddress)` as a `String`. -/
def macStr (bs : List Nat) : String := ⟨macChars bs⟩


/-- The Python list comprehension `[parse(x) for x in tokens]`, failing
when any element fails. -/
def parseTokens (p : List Char → Option Nat) : List (List Char) → Option (List Nat)
  | [] => some []
  | t :: ts => do
    let b ← p t
    let bs ← parseTokens p ts
    pure (b :: bs)


/-- `HWAddress(value).pack()` (modelled from the spec's external codec):
split on `':'`, six groups, each parsed with `int(x, 16)` and packed as
one byte. -/
def macPack (cs : List Char) : Option (List Nat) :=
  let toks := splitChar ':' cs
  if toks.length = 6 then do
    let bs ← parseTokens pyHexOfChars toks
    if bs.all (· < 256) then some bs else none
  else none


/-- The uppercase all-ones MAC mask literal of the elision check. -/
def allOnesMac : List Char := "FF:FF:FF:FF:FF:FF".toList


/-- The encoder shared by the MAC-address fields (`dl_src`, `dl_dst`,
`arp_sha`, `arp_tha`): an optional `/mask` suffix; an all-ones mask (in
any letter case) is elided — has-mask false, no mask bytes. -/
def macToTlv (field : Nat) : MVal → Option OxmTLV
  | .i _ => none
  | .s s =>
    let cs := s.toList
    if '/' ∈ cs then
      match splitChar '/' cs with
      | [valueTok, maskTok] =>
        let mask := maskTok.map Char.toUpper
        if mask = allOnesMac then
          (macPack valueTok).map fun vb => ⟨field, false, vb⟩
        else do
          let vb ← macPack valueTok
          if mask.isEmpty then pure ⟨field, true, vb⟩
          else do
            let mb ← macPack mask
            pure ⟨field, true, vb ++ mb⟩
      | _ => none
    else (macPack cs).map fun vb => ⟨field, false, vb⟩


/-- The decoder shared by the MAC-address fields: unpack six bytes, and
with the has-mask flag six more, rendered `f'{addr}/{mask}'`. -/
def macFromTlv (tlv : OxmTLV) : MVal :=
  let addr := macStr (tlv.oxm_value.take 6)
  if tlv.oxm_hasmask then
    .s (addr ++ "/" ++ macStr ((tlv.oxm_value.drop 6).take 6))
  else .s addr


/-- An IPv4 address rendered as `str(IPAddress)` renders it: dotted
decimal. -/
def ipv4Chars (bs : List Nat) : List Char := joinChar '.' (bs.map natDecChars)


/-- `str(IPAddress)` as a `String`. -/
def ipv4Str (bs : List Nat) : String := ⟨ipv4Chars bs⟩


/-- The dotted-quad part of `IPAddress(value).pack()` (modelled from
the spec's external codec). -/
def ipv4Pack (cs : List Char) : Option (List Nat) :=
  let toks := splitChar '.' cs
  if toks.length = 4 then do
    let bs ← parseTokens pyIntOfChars toks
    if bs.all (· < 256) then some bs else none
  else none


/-- `IPAddress(value)` (modelled from the spec's external codec): the
four address bytes and the netmask (`/n` suffix, default 32). -/
def ipv4Parse (cs : List Char) : Option (List Nat × Nat) :=
  match splitChar '/' cs with
  | [a] => (ipv4Pack a).map fun bs => (bs, 32)
  | a :: n :: _ => do
    let bs ← ipv4Pack a
    let nm ← pyIntOfChars n
    pure (bs, nm)
  | [] => none


/-- The encoder shared by the IPv4-address fields (`nw_src`, `nw_dst`,
`arp_spa`, `arp_tpa`): has-mask and appended mask bytes exactly when the
netmask is shorter than 32. -/
def ipv4ToTlv (field : Nat) : MVal → Option OxmTLV
  | .i _ => none
  | .s s => do
    let (bs, nm) ← ipv4Parse s.toList
    if nm < 32 then pure ⟨field, true, bs ++ mask_to_bytes nm 32⟩
    else pure ⟨field, false, bs⟩


/-- The decoder shared by the IPv4-address fields: dotted decimal, plus
`/{bytes_to_mask(...)}` when masked (`none` is the `IndexError` that
`bytes_to_mask` can raise on garbage mask bytes). -/
def ipv4FromTlv (tlv : OxmTLV) : Option MVal :=
  let addr := ipv4Str (tlv.oxm_value.take 4)
  if tlv.oxm_hasmask then
    (bytes_to_mask (tlv.oxm_value.drop 4) 32).map fun nm =>
      .s (addr ++ "/" ++ natDecStr nm)
  else some (.s addr)


/-- Fuel-driven minimal hex rendering (for IPv6 groups). -/
def hexMinCore : Nat → Nat → List Char → List Char
  | 0, _, acc => acc
  | fuel + 1, n, acc =>
    let d := hexDigit (n % 16)
    if n < 16 then d :: acc else hexMinCore fuel (n / 16) (d :: acc)


/-- Minimal lowercase hex rendering of a number. -/
def hexMinChars (n : Nat) : List Char := hexMinCore (n + 1) n []


/-- 16 bytes to 8 16-bit groups. -/
def bytePairs : List Nat → List Nat
  | a :: b :: rest => (a * 256 + b) :: bytePairs rest
  | [a] => [a]
  | [] => []


/-- An IPv6 address rendered group-wise (modelled from the spec's
external codec, uncompressed form). -/
def ipv6Chars (bs : List Nat) : List Char :=
  joinChar ':' ((bytePairs bs).map hexMinChars)


/-- `str(IPv6Address)` as a `String`. -/
def ipv6Str (bs : List Nat) : String := ⟨ipv6Chars bs⟩


/-- The address part of `IPv6Address(value).pack()` (modelled from the
spec's external codec): eight hex groups joined with `':'`. -/
def ipv6Pack (cs : List Char) : Option (List Nat) :=
  let toks := splitChar ':' cs
  if toks.length = 8 then do
    let gs ← parseTokens pyHexOfChars toks
    if gs.all (· < 65536) then some ((gs.map fun g => [g / 256, g % 256]).flatten)
    else none
  else none


/-- `IPv6Address(value)` (modelled from the spec's external codec):
16 address bytes and the netmask (`/n` suffix, default 128). -/
def ipv6Parse (cs : List Char) : Option (List Nat × Nat) :=
  match splitChar '/' cs with
  | [a] => (ipv6Pack a).map fun bs => (bs, 128)
  | a :: n :: _ => do
    let bs ← ipv6Pack a
    let nm ← pyIntOfChars n
    pure (bs, nm)
  | [] => none


/-- The encoder shared by `ipv6_src` / `ipv6_dst`. -/
def ipv6ToTlv (field : Nat) : MVal → Option OxmTLV
  | .i _ => none
  | .s s => do
    let (bs, nm) ← ipv6Parse s.toList
    if nm < 128 then pure ⟨field, true, bs ++ mask_to_bytes nm 128⟩
    else pure ⟨field, false, bs⟩


/-- The decoder shared by `ipv6_src` / `ipv6_dst`. -/
def ipv6FromTlv (tlv : OxmTLV) : Option MVal :=
  let addr := ipv6Str (tlv.oxm_value.take 16)
  if tlv.oxm_hasmask then
    (bytes_to_mask (tlv.oxm_value.drop 16) 128).map fun nm =>
      .s (addr ++ "/" ++ natDecStr nm)
  else some (.s addr)


/-! ## The match-field registry and factory (`match_fields_base.py`)

`MatchFieldFactory._index_classes` walks `MatchField.__subclasses__()`
and indexes every class both by its `name` and by its `oxm_field`; the
table below lists the 40 classes of `match_fields.py` and
`match_fields_ipv6.py` in definition order, with their encoders and
decoders. -/

/-- A decoded high-level match field: the JSON name and the value. -/
structure Field where
  name : String
  value : MVal
deriving DecidableEq


/-- One registered `MatchField` subclass: its two registry keys and its
`as_of_tlv` / `from_of_tlv` implementations (the decoder is `none` when
the Python method would raise). -/
structure MFClass where
  name : String
  oxm_field : Nat
  enc : MVal → Option OxmTLV
  dec : OxmTLV → Option Field


/-- A plain fixed-width integer field. -/
def mfPlain (name : String) (width : Nat) : MFClass :=
  ⟨name, OXM_OFB name, intToTlv (OXM_OFB name) width,
   fun tlv => some ⟨name, intFromTlv tlv⟩⟩


/-- A maskable integer field. -/
def mfMaskedInt (name : String) (width : Nat) : MFClass :=
  ⟨name, OXM_OFB name, maskedIntToTlv (OXM_OFB name) width,
   fun tlv => some ⟨name, maskedIntFromTlv width tlv⟩⟩


/-- A MAC-address field. -/
def mfMac (name : String) : MFClass :=
  ⟨name, OXM_OFB name, macToTlv (OXM_OFB name),
   fun tlv => some ⟨name, macFromTlv tlv⟩⟩


/-- An IPv4-address field. -/
def mfIpv4 (name : String) : MFClass :=
  ⟨name, OXM_OFB name, ipv4ToTlv (OXM_OFB name),
   fun tlv => (ipv4FromTlv tlv).map fun v => ⟨name, v⟩⟩


/-- An IPv6-address field. -/
def mfIpv6 (name : String) : MFClass :=
  ⟨name, OXM_OFB name, ipv6ToTlv (OXM_OFB name),
   fun tlv => (ipv6FromTlv tlv).map fun v => ⟨name, v⟩⟩


/-- The VLAN-id field. -/
def mfVlan : MFClass :=
  ⟨"dl_vlan", OXM_OFB "dl_vlan", MatchDLVLAN_as_of_tlv,
   fun tlv => some ⟨"dl_vlan", MatchDLVLAN_from_of_tlv tlv⟩⟩


/-- All registered `MatchField` subclasses, in definition order. -/
def matchFieldClasses : List MFClass :=
  [mfVlan, mfPlain "dl_vlan_pcp" 1, mfMac "dl_src", mfMac "dl_dst",
   mfPlain "dl_type" 2, mfIpv4 "nw_src", mfIpv4 "nw_dst",
   mfPlain "nw_proto" 1, mfPlain "in_port" 4, mfPlain "tp_src" 2,
   mfPlain "tp_dst" 2, mfPlain "in_phy_port" 4, mfPlain "ip_dscp" 1,
   mfPlain "ip_ecn" 1, mfPlain "udp_src" 2, mfPlain "udp_dst" 2,
   mfPlain "sctp_src" 2, mfPlain "sctp_dst" 2, mfPlain "icmpv4_type" 1,
   mfPlain "icmpv4_code" 1, mfPlain "arp_op" 2, mfIpv4 "arp_spa",
   mfIpv4 "arp_tpa", mfMac "arp_sha", mfMac "arp_tha",
   mfPlain "mpls_lab" 4, mfPlain "mpls_tc" 1, mfPlain "mpls_bos" 1,
   mfMaskedInt "pbb_isid" 3, mfMaskedInt "metadata" 8,
   mfMaskedInt "tun_id" 8, mfIpv6 "ipv6_src", mfIpv6 "ipv6_dst",
   mfMaskedInt "ipv6_flabel" 4, mfPlain "icmpv6_type" 1,
   mfPlain "icmpv6_code" 1, mfPlain "nd_tar" 16, mfPlain "nd_sll" 6,
   mfPlain "nd_tll" 6, mfMaskedInt "v6_hdr" 2]


/-- Result of `MatchFieldFactory.from_of_tlv`: a field, an exception
inside the class decoder, or the silent `None` for an unregistered
`oxm_field`. -/
inductive DecodeResult
  | field (f : Field)
  | errored
  | skipped
deriving DecidableEq


/-- `MatchFieldFactory.from_of_tlv`: look the wire identifier up in the
registry; no class means no field. -/
def MatchFieldFactory_from_of_tlv (tlv : OxmTLV) : DecodeResult :=
  match matchFieldClasses.find? (fun c => c.oxm_field == tlv.oxm_field) with
  | none => .skipped
  | some c =>
    match c.dec tlv with
    | some f => .field f
    | none => .errored


/-- `MatchFieldFactory.from_name`: an unregistered name yields no field
object. -/
def MatchFieldFactory_from_name (name : String) (value : MVal) : Option Field :=
  match matchFieldClasses.find? (fun c => c.name == name) with
  | none => none
  | some _ => some ⟨name, value⟩


/-- `field.as_of_tlv()` on a factory-produced field: dispatch to the
class encoder by name. -/
def Field_as_of_tlv (f : Field) : Option OxmTLV :=
  match matchFieldClasses.find? (fun c => c.name == f.name) with
  | none => none
  | some c => c.enc f.value


/-- `Match.as_of_match` (`v0x04/flow.py`): iterate the non-`None` match
attributes, skip names the factory does not know, append the TLV of the
rest (`none` when an encoder raises). -/
def Match04_as_of_match : List (String × MVal) → Option (List OxmTLV)
  | [] => some []
  | (n, v) :: rest =>
    match MatchFieldFactory_from_name n v with
    | none => Match04_as_of_match rest
    | some f => do
      let tlv ← Field_as_of_tlv f
      let tail ← Match04_as_of_match rest
      pure (tlv :: tail)


/-- `Match.from_of_match` (`v0x04/flow.py`): decode each TLV, skipping
the `None`s the factory returns for unknown identifiers (`none` when a
class decoder raises). -/
def Match04_from_of_match : List OxmTLV → Option (List Field)
  | [] => some []
  | tlv :: rest =>
    match MatchFieldFactory_from_of_tlv tlv with
    | .skipped => Match04_from_of_match rest
    | .errored => none
    | .field f => (Match04_from_of_match rest).map fun t => f :: t


/-! ## The action factories (`flow.py`, `v0x01/flow.py`, `v0x04/flow.py`) -/

/-- A Python action dictionary (scalar values). -/
abbrev ActionDict : Type := List (String × FVal)


/-- `dict.get(k)` / `dict[k]`-lookup on an action dictionary. -/
def dictGet (d : ActionDict) (k : String) : Option FVal :=
  (d.find? fun e => e.1 == k).map fun e => e.2


/-- A Python call result: normal return, a raised `KeyError`, or a
raised `TypeError`. -/
inductive PyResult (α : Type)
  | ok (a : α)
  | keyError
  | typeError
deriving DecidableEq


/-- A `v0x04` action object as `ActionBase.from_dict` builds it
(attributes left `None` when the dictionary does not carry them). -/
inductive Action04Obj
  | output (port : Option FVal)
  | set_vlan (vlan_id : Option FVal)
  | push_vlan (tag_type : Option FVal)
  | pop_vlan
deriving DecidableEq


/-- A `v0x01` action object. -/
inductive Action01Obj
  | output (port : FVal)
  | set_vlan (vlan_id : FVal)
deriving DecidableEq


/-- `ActionFactoryBase.from_dict` with the `v0x04` `_action_class`
dictionary: `action_dict.get('action_type')` then a plain dictionary
*indexing* — an unrecognized (or missing) `action_type` raises
`KeyError`.  The inherited `ActionBase.from_dict` then calls
`cls(None)`, which for `ActionPopVlan` (whose `__init__` takes no
argument) raises `TypeError`. -/
def Action04Factory_from_dict (d : ActionDict) : PyResult (Option Action04Obj) :=
  match dictGet d "action_type" with
  | none => .keyError
  | some av =>
    if av = FVal.s "output" then .ok (some (.output (dictGet d "port")))
    else if av = FVal.s "set_vlan" then .ok (some (.set_vlan (dictGet d "vlan_id")))
    else if av = FVal.s "push_vlan" then .ok (some (.push_vlan (dictGet d "tag_type")))
    else if av = FVal.s "pop_vlan" then .typeError
    else .keyError


/-- `v0x01` `Action.from_dict`: an `if`/`elif` chain that falls through
to `None` on an unrecognized `action_type` (the per-class constructors
index `dict_content['port']` / `['vlan_id']`, raising when absent). -/
def Action01_from_dict (d : ActionDict) : PyResult (Option Action01Obj) :=
  match dictGet d "action_type" with
  | none => .keyError
  | some av =>
    if av = FVal.s "output" then
      match dictGet d "port" with
      | some p => .ok (some (.output p))
      | none => .keyError
    else if av = FVal.s "set_vlan" then
      match dictGet d "vlan_id" with
      | some v => .ok (some (.set_vlan v))
      | none => .keyError
    else .ok none

/-! ## Theorems -/


/-! ## Round-trip lemmas for the byte primitives -/

theorem fromBytesBE_append (xs ys : List Nat) :
    fromBytesBE (xs ++ ys) = ys.foldl (fun acc b => acc * 256 + b) (fromBytesBE xs) := by
  simp [fromBytesBE, List.foldl_append]


theorem fromBytesBE_append_singleton (xs : List Nat) (b : Nat) :
    fromBytesBE (xs ++ [b]) = fromBytesBE xs * 256 + b := by
  simp [fromBytesBE_append, List.foldl]


theorem toBytesBE_length (len n : Nat) : (toBytesBE len n).length = len := by
  induction len generalizing n with
  | zero => simp [toBytesBE]
  | succ k ih => simp [toBytesBE, ih]


/-- Big-endian round trip: reading back `len` bytes of a value that fits. -/
theorem fromBytesBE_toBytesBE (len n : Nat) (h : n < 256 ^ len) :
    fromBytesBE (toBytesBE len n) = n := by
  induction len generalizing n with
  | zero =>
    simp [Nat.pow_zero] at h
    simp [toBytesBE, fromBytesBE, h]
  | succ k ih =>
    have hdiv : n / 256 < 256 ^ k := by
      rw [Nat.div_lt_iff_lt_mul (by norm_num)]
      calc n < 256 ^ (k + 1) := h
        _ = 256 ^ k * 256 := by ring
    rw [toBytesBE, fromBytesBE_append_singleton, ih _ hdiv]
    omega


theorem mask_bytes_roundtrip (size n : Nat)
    (hsize : size = 32 ∨ size = 128) (hn : n ≤ size) :
    bytes_to_mask (mask_to_bytes n size) size = some n := by
  rcases hsize with h | h <;> subst h <;> revert hn <;> revert n <;> decide


/-- C10: converting a prefix length `0 ≤ n ≤ size`, for the two sizes
used by the codec (IPv4: 32, IPv6: 128), to its big-endian mask bytes
and back is the identity. -/
theorem C10_mask_roundtrip (size n : Nat)
    (hsize : size = 32 ∨ size = 128) (hn : n ≤ size) :
    bytes_to_mask (mask_to_bytes n size) size = some n :=
  mask_bytes_roundtrip size n hsize hn


/-- C10 witness: a /24 IPv4 prefix round-trips. -/
theorem C10_mask_roundtrip_witness :
    bytes_to_mask (mask_to_bytes 24 32) 32 = some 24 :=
  C10_mask_roundtrip 32 24 (Or.inl rfl) (by decide)


/-- Sanity check against the RFC 1321 test vector for `"abc"`. -/
theorem md5HexStr_abc :
    md5HexStr "abc" = "900150983cd24fb0d6963f7d28e17f72" := by decide


/-- Sanity check against the RFC 1321 test vector for the empty string. -/
theorem md5HexStr_empty :
    md5HexStr "" = "d41d8cd98f00b204e9800998ecf8427e" := by decide


/-- Sanity check against the RFC 1321 two-chunk test vector
(`"1234567890" * 8`). -/
theorem md5HexStr_digits :
    md5HexStr "12345678901234567890123456789012345678901234567890123456789012345678901234567890"
      = "57edf4a22be3c955ac49da2e2107b67a" := by decide


/-! ### Shape of the digest: 32 lowercase hex characters -/

theorem toBytesLE_length (len n : Nat) : (toBytesLE len n).length = len := by
  induction len generalizing n with
  | zero => simp [toBytesLE]
  | succ k ih => simp [toBytesLE, ih]


theorem toBytesLE_mem_lt {len n x : Nat} (h : x ∈ toBytesLE len n) : x < 256 := by
  induction len generalizing n with
  | zero => simp [toBytesLE] at h
  | succ k ih =>
    simp only [toBytesLE, List.mem_cons] at h
    rcases h with h | h
    · omega
    · exact ih h


theorem length_flatMap_byteHex (bs : List Nat) :
    (bs.flatMap byteHex).length = 2 * bs.length := by
  induction bs with
  | nil => simp
  | cons b rest ih => simp [byteHex, ih]; omega


theorem hexDigit_mem (n : Nat) (h : n < 16) :
    "0123456789abcdef".toList.contains (hexDigit n) = true := by
  revert h; revert n; decide


theorem byteHex_mem_hex {b : Nat} (hb : b < 256) {c : Char}
    (hc : c ∈ byteHex b) : "0123456789abcdef".toList.contains c = true := by
  simp only [byteHex, List.mem_cons, List.not_mem_nil, or_false] at hc
  rcases hc with h | h <;> subst h
  · exact hexDigit_mem _ (by omega)
  · exact hexDigit_mem _ (by omega)


theorem md5Hex_length (msg : List Nat) : (MD5.md5Hex msg).length = 32 := by
  rw [MD5.md5Hex]
  rcases MD5.md5State msg with ⟨a, b, c, d⟩
  show (List.flatMap _ _).length = 32
  simp only [List.flatMap_append, List.length_append, length_flatMap_byteHex,
    toBytesLE_length]


theorem md5Hex_isLowerHex (msg : List Nat) :
    isLowerHex (MD5.md5Hex msg) = true := by
  rw [MD5.md5Hex]
  rcases MD5.md5State msg with ⟨a, b, c, d⟩
  show ((List.flatMap _ _).all _) = true
  rw [List.all_eq_true]
  intro c hc
  rw [List.mem_flatMap] at hc
  obtain ⟨x, hx, hcx⟩ := hc
  have hx256 : x < 256 := by
    simp only [List.mem_append] at hx
    rcases hx with ((h | h) | h) | h <;> exact toBytesLE_mem_lt h
  exact byteHex_mem_hex hx256 hcx


/-- C1 (counterexample): the claim states that for *either* protocol
variant the id is the md5 of the sorted-key serialization of the
map-without-id-and-stats.  The `v0x01` `Flow.id` override instead hashes
the concatenation of `str(field)` for the raw field list, so already on
a default-constructed `v0x01` flow the two digests differ. -/
theorem C1_counterexample :
    Flow01.id flowC1 ≠ md5HexStr (jsonDumps true (Flow01.as_dict flowC1 false)) := by
  decide


/-- C1 (amended): for `v0x04` flows the id is, as claimed, the md5 of
the sorted-key serialization of the map with id and stats excluded and
the switch identifier included as a field; for `v0x01` flows the id is
instead the md5 of the concatenation of `str()` of the fields
`[switch id, table_id, match, priority, idle_timeout, hard_timeout,
cookie, actions]` (stats are still excluded).  In both variants the id
is 32 lowercase hex characters (a 128-bit digest) and flows whose
non-stats fields are equal share the id even if their stats differ. -/
theorem C1_flow_id (f g : Flow04) (p q : Flow01)
    (hfg : f.sameNonStats g) (hpq : p.sameNonStats q) :
    Flow04.id f = specFlowId04 f ∧ Flow04.id f = Flow04.id g ∧
    (Flow04.id f).length = 32 ∧ isLowerHex (Flow04.id f) = true ∧
    Flow01.id p = md5HexStr (String.join
      [p.switch_id, toString p.table_id, pyStrDict p.matchDict,
       toString p.priority, toString p.idle_timeout, toString p.hard_timeout,
       toString p.cookie, pyStrDictList (p.actions.map Action01.as_dict)]) ∧
    Flow01.id p = Flow01.id q ∧
    (Flow01.id p).length = 32 ∧ isLowerHex (Flow01.id p) = true := by
  obtain ⟨h1, h2, h3, h4, h5, h6, h7, h8, h9⟩ := hfg
  obtain ⟨k1, k2, k3, k4, k5, k6, k7, k8⟩ := hpq
  refine ⟨rfl, ?_, md5Hex_length _, md5Hex_isLowerHex _, rfl, ?_,
    md5Hex_length _, md5Hex_isLowerHex _⟩
  · cases f; cases g
    simp only at h1 h2 h3 h4 h5 h6 h7 h8 h9
    subst h1 h2 h3 h4 h5 h6 h7 h8 h9
    rfl
  · cases p; cases q
    simp only at k1 k2 k3 k4 k5 k6 k7 k8
    subst k1 k2 k3 k4 k5 k6 k7 k8
    rfl


/-- C1 witness: the amended statement instantiated at two concrete flow
pairs that differ exactly in their statistics snapshots. -/
theorem C1_flow_id_witness :
    Flow04.id
        { switch_id := "00:00:00:00:00:00:00:01", table_id := 0,
          matchDict := [("in_port", .i 1)], priority := 10,
          idle_timeout := 0, hard_timeout := 0, cookie := 0,
          actions := [.output 2], cookie_mask := 0,
          stats := ⟨some 1, none, none, some 2⟩ } =
      Flow04.id
        { switch_id := "00:00:00:00:00:00:00:01", table_id := 0,
          matchDict := [("in_port", .i 1)], priority := 10,
          idle_timeout := 0, hard_timeout := 0, cookie := 0,
          actions := [.output 2], cookie_mask := 0,
          stats := ⟨none, none, none, none⟩ } ∧
    Flow01.id { flowC1 with stats := ⟨some 9, none, none, none⟩ } =
      Flow01.id flowC1 := by
  refine ⟨(C1_flow_id _ _ flowC1 flowC1
    ⟨rfl, rfl, rfl, rfl, rfl, rfl, rfl, rfl, rfl⟩
    ⟨rfl, rfl, rfl, rfl, rfl, rfl, rfl, rfl⟩).2.1, ?_⟩
  exact (C1_flow_id
    { switch_id := "s", table_id := 0, matchDict := [], priority := 0,
      idle_timeout := 0, hard_timeout := 0, cookie := 0, actions := [],
      cookie_mask := 0, stats := ⟨none, none, none, none⟩ }
    { switch_id := "s", table_id := 0, matchDict := [], priority := 0,
      idle_timeout := 0, hard_timeout := 0, cookie := 0, actions := [],
      cookie_mask := 0, stats := ⟨none, none, none, none⟩ }
    { flowC1 with stats := ⟨some 9, none, none, none⟩ } flowC1
    ⟨rfl, rfl, rfl, rfl, rfl, rfl, rfl, rfl, rfl⟩
    ⟨rfl, rfl, rfl, rfl, rfl, rfl, rfl, rfl⟩).2.2.2.2.2.1


/-! ### `pyMax` characterization -/

theorem le_foldl_max (a : Nat) (xs : List Nat) : a ≤ xs.foldl Nat.max a := by
  induction xs generalizing a with
  | nil => simp
  | cons x xs ih => exact le_trans (Nat.le_max_left a x) (ih (Nat.max a x))


theorem mem_le_foldl_max (a : Nat) {xs : List Nat} {w : Nat} (hw : w ∈ xs) :
    w ≤ xs.foldl Nat.max a := by
  induction xs generalizing a with
  | nil => simp at hw
  | cons x xs ih =>
    rcases List.mem_cons.mp hw with h | h
    · subst h
      exact le_trans (Nat.le_max_right a w) (le_foldl_max _ xs)
    · exact ih _ h


theorem foldl_max_mem_or (a : Nat) (xs : List Nat) :
    xs.foldl Nat.max a = a ∨ xs.foldl Nat.max a ∈ xs := by
  induction xs generalizing a with
  | nil => left; rfl
  | cons x xs ih =>
    rcases ih (Nat.max a x) with h | h
    · rcases Nat.le_total x a with hle | hle
      · left; rw [List.foldl_cons, h]
        exact Nat.max_eq_left hle
      · right; rw [List.foldl_cons, h]
        have hx : Nat.max a x = x := Nat.max_eq_right hle
        rw [hx]; exact List.mem_cons_self x xs
    · right; exact List.mem_cons_of_mem x h


theorem pyMax_eq_some_iff (l : List Nat) (v : Nat) :
    pyMax l = some v ↔ v ∈ l ∧ ∀ w ∈ l, w ≤ v := by
  cases l with
  | nil => simp [pyMax]
  | cons x xs =>
    simp only [pyMax, Option.some_inj]
    constructor
    · intro h
      subst h
      refine ⟨?_, ?_⟩
      · rcases foldl_max_mem_or x xs with h | h
        · rw [h]; exact List.mem_cons_self x xs
        · exact List.mem_cons_of_mem x h
      · intro w hw
        rcases List.mem_cons.mp hw with h | h
        · subst h; exact le_foldl_max w xs
        · exact mem_le_foldl_max x h
    · rintro ⟨hmem, hub⟩
      refine le_antisymm ?_ ?_
      · rcases foldl_max_mem_or x xs with h | h
        · rw [h]; exact hub x (List.mem_cons_self x xs)
        · exact hub _ (List.mem_cons_of_mem x h)
      · rcases List.mem_cons.mp hmem with h | h
        · subst h; exact le_foldl_max v xs
        · exact mem_le_foldl_max x h


/-! ### C3: version negotiation -/

/-- C3: with a non-empty version bitmap the selected version is exactly
the greatest version common to the bitmap and the supported set; without
a bitmap it is the minimum of the peer's header version and the highest
supported version (4), and only if that minimum is itself supported; and
the selection yielding no version is exactly when `_negotiate` runs
`fail_negotiation` (protocol state `hello_failed`) and raises. -/
theorem C3_version_negotiation (versions : List Nat) (hv : Nat) (c : Conn) (xid : Nat) :
    (versions ≠ [] → ∀ v, (selectVersion versions hv = some v ↔
      v ∈ versions ∧ v ∈ OPENFLOW_VERSIONS ∧
        ∀ w ∈ versions, w ∈ OPENFLOW_VERSIONS → w ≤ v)) ∧
    (versions = [] → ∀ v, (selectVersion versions hv = some v ↔
      v = min hv 4 ∧ v ∈ OPENFLOW_VERSIONS)) ∧
    (selectVersion versions hv = none →
      (negotiate c versions hv xid).2 = false ∧
      (negotiate c versions hv xid).1.1.protoState = some PState.hello_failed) ∧
    (∀ v, selectVersion versions hv = some v → (negotiate c versions hv xid).2 = true) := by
  refine ⟨?_, ?_, ?_, ?_⟩
  · intro hne v
    have hie : versions.isEmpty = false := by
      cases versions with
      | nil => exact absurd rfl hne
      | cons x xs => rfl
    rw [selectVersion, hie]
    simp only [Bool.false_eq_true, if_false]
    rw [get_version_from_bitmask, pyMax_eq_some_iff]
    simp only [List.mem_filter, decide_eq_true_eq]
    constructor
    · rintro ⟨⟨h1, h2⟩, h3⟩
      exact ⟨h1, h2, fun w hw hw' => h3 w ⟨hw, hw'⟩⟩
    · rintro ⟨h1, h2, h3⟩
      exact ⟨⟨h1, h2⟩, fun w hw => h3 w hw.1 hw.2⟩
  · intro he v
    subst he
    rw [selectVersion]
    show (if min hv 4 ∈ OPENFLOW_VERSIONS then some (min hv 4) else none) = some v ↔ _
    split
    · rename_i hmem
      constructor
      · intro h
        cases h
        exact ⟨rfl, hmem⟩
      · rintro ⟨h, -⟩
        rw [h]
    · rename_i hmem
      constructor
      · intro h; cases h
      · rintro ⟨h, hm⟩
        subst h
        exact absurd hm hmem
  · intro hnone
    simp [negotiate, hnone, fail_negotiation]
  · intro v hv'
    simp [negotiate, hv']


/-- C3 witness: the spec's own examples — bitmap `[1, 4]` selects `4`,
bitmap `[9]` selects nothing and `_negotiate` fails. -/
theorem C3_version_negotiation_witness :
    selectVersion [1, 4] 4 = some 4 ∧
    (negotiate ⟨CState.new, none, none, []⟩ [9] 4 7).2 = false := by
  constructor
  · exact ((C3_version_negotiation [1, 4] 4 ⟨CState.new, none, none, []⟩ 0).1
      (by decide) 4).mpr (by decide)
  · exact ((C3_version_negotiation [9] 4 ⟨CState.new, none, none, []⟩ 7).2.2.1
      (by decide)).1


/-! ### C8: negotiation failure -/

/-- C8: a hello with no common version on a fresh connection produces
exactly the `hello_failed` event and the hello-failed/incompatible error
message, sets the protocol state to `hello_failed`, closes the
connection (state `failed`, not alive), drops the remaining frames of
the same buffer, and any later input on that connection is a no-op
(negotiation is never retried). -/
theorem C8_negotiation_failure (c : Conn) (vs : List Nat) (hv xid : Nat)
    (rest : List Packet) (hnew : c.connState = CState.new) (hrem : c.remaining = [])
    (hsel : selectVersion vs hv = none) :
    handleRawIn c (Packet.hello vs hv xid :: rest) =
      ({ c with
          connState := CState.failed,
          protoState := some PState.hello_failed,
          remaining := [] },
        [Emission.helloFailedEvent, Emission.errorMsgHelloFailedIncompatible 4 xid]) ∧
    (handleRawIn c (Packet.hello vs hv xid :: rest)).1.isAlive = false ∧
    ∀ more, handleRawIn (handleRawIn c (Packet.hello vs hv xid :: rest)).1 more =
      ((handleRawIn c (Packet.hello vs hv xid :: rest)).1, []) := by
  obtain ⟨cs, ps, pv, rem⟩ := c
  simp only at hnew hrem
  subst hnew hrem
  have hmain : handleRawIn ⟨CState.new, ps, pv, []⟩ (Packet.hello vs hv xid :: rest) =
      (⟨CState.failed, some PState.hello_failed, pv, []⟩,
       [Emission.helloFailedEvent, Emission.errorMsgHelloFailedIncompatible 4 xid]) := by
    simp [handleRawIn, rawInLoop, negotiate, hsel, fail_negotiation, Conn.isAlive,
      Conn.close]
    decide
  refine ⟨hmain, ?_, ?_⟩
  · rw [hmain]; rfl
  · intro more
    rw [hmain]
    cases more with
    | nil => simp [handleRawIn]
    | cons p ps' => simp [handleRawIn, rawInLoop, Conn.isAlive]


/-- C8 witness: a concrete fresh connection receiving an unsupported
hello (`[9]`) followed by another frame. -/
theorem C8_negotiation_failure_witness :
    handleRawIn ⟨CState.new, none, none, []⟩
        (Packet.hello [9] 9 5 :: [Packet.msg MsgType.ofpt_other 6]) =
      (⟨CState.failed, some PState.hello_failed, none, []⟩,
       [Emission.helloFailedEvent, Emission.errorMsgHelloFailedIncompatible 4 5]) := by
  exact (C8_negotiation_failure ⟨CState.new, none, none, []⟩ [9] 9 5
    [Packet.msg MsgType.ofpt_other 6] rfl rfl (by decide)).1


/-! ### C9: handshake completion -/

/-- C9: the features-reply handler marks the connection established
(protocol state `handshake_complete`) exactly when it runs with the
connection in setup and protocol state `waiting_features_reply`; that
completion also requests the description and the port description; in
any other state the handler leaves the connection untouched (the port
description request alone is still sent); and after one handling the
trigger can never hold again, so completion happens at most once. -/
theorem C9_features_reply (c : Conn) :
    (frTrigger c →
      (handle_features_reply04 c).1.protoState = some PState.handshake_complete ∧
      (handle_features_reply04 c).1.connState = CState.established ∧
      Emission.descRequest ∈ (handle_features_reply04 c).2 ∧
      Emission.portDescRequest ∈ (handle_features_reply04 c).2) ∧
    (¬ frTrigger c → (handle_features_reply04 c).1 = c ∧
      (handle_features_reply04 c).2 = [Emission.portDescRequest]) ∧
    ¬ frTrigger (handle_features_reply04 c).1 := by
  by_cases h : frTrigger c
  · rw [frTrigger] at h
    refine ⟨fun _ => ?_, fun hn => absurd h (by rwa [frTrigger] at hn), ?_⟩
    · simp [handle_features_reply04, h, SEND_SET_CONFIG]
    · simp [handle_features_reply04, h, frTrigger]
  · have h' : ¬(c.connState = CState.setup ∧
        c.protoState = some PState.waiting_features_reply) := by rwa [frTrigger] at h
    refine ⟨fun ht => absurd ht h, fun _ => ?_, ?_⟩
    · simp [handle_features_reply04, h']
    · simp only [handle_features_reply04, if_neg h']
      rwa [frTrigger]


/-- C9 witness: a connection in setup waiting for the features reply
completes the handshake; handling a second features reply leaves the
established state untouched. -/
theorem C9_features_reply_witness :
    (handle_features_reply04
        ⟨CState.setup, some PState.waiting_features_reply, some 4, []⟩).1.protoState =
      some PState.handshake_complete ∧
    ¬ frTrigger (handle_features_reply04
        ⟨CState.setup, some PState.waiting_features_reply, some 4, []⟩).1 := by
  refine ⟨((C9_features_reply _).1 ⟨rfl, rfl⟩).1, (C9_features_reply
    ⟨CState.setup, some PState.waiting_features_reply, some 4, []⟩).2.2⟩


theorem mpRun_odd {α : Type} (swid : String) (X : Nat) :
    ∀ (frags : List (MPReply α)) (st : MPState α),
    (∀ f ∈ frags, f.xid = X ∧ f.flags % 2 = 1) →
    st.replies_xids swid = some X →
    (mpRun st frags swid).replies_xids = st.replies_xids ∧
    (mpRun st frags swid).switch_flows = st.switch_flows ∧
    ((mpRun st frags swid).replies_flows swid).getD [] =
      (st.replies_flows swid).getD [] ++ (frags.map MPReply.body).flatten := by
  intro frags
  induction frags with
  | nil =>
    intro st _ _
    exact ⟨rfl, rfl, by simp [mpRun]⟩
  | cons f fs ih =>
    intro st h hx
    obtain ⟨hfx, hff⟩ := h f (List.mem_cons_self f fs)
    have hours : is_multipart_reply_ours st f swid = true := by
      simp [is_multipart_reply_ours, hx, hfx]
    have hodd : (f.flags % 2 == 0) = false := by
      rw [hff]; rfl
    have hstep : handle_multipart_flow_stats st f swid =
        { st with
            replies_flows := fun s =>
              if s = swid then some ((st.replies_flows swid).getD [] ++ f.body)
              else st.replies_flows s } := by
      rw [handle_multipart_flow_stats, if_pos hours, hodd]
      rfl
    have hmp : mpRun st (f :: fs) swid =
        mpRun (handle_multipart_flow_stats st f swid) fs swid := rfl
    rw [hmp, hstep]
    obtain ⟨ih1, ih2, ih3⟩ := ih
      { st with
          replies_flows := fun s =>
            if s = swid then some ((st.replies_flows swid).getD [] ++ f.body)
            else st.replies_flows s }
      (fun g hg => h g (List.mem_cons_of_mem f hg)) hx
    refine ⟨ih1, ih2, ?_⟩
    rw [ih3]
    simp [List.append_assoc]


/-- C4: fragments carrying the recorded xid, all with odd flags, then a
final fragment with even flags: the switch's flow list becomes exactly
the concatenation of the fragments' flows in arrival order, and both the
accumulator entry and the outstanding-xid entry for that switch are
removed. -/
theorem C4_multipart_finalize {α : Type} (st : MPState α) (swid : String) (X : Nat)
    (frags : List (MPReply α)) (last : MPReply α)
    (hfr : ∀ f ∈ frags, f.xid = X ∧ f.flags % 2 = 1)
    (hlx : last.xid = X) (hlf : last.flags % 2 = 0)
    (hx : st.replies_xids swid = some X)
    (hacc : st.replies_flows swid = none) :
    (handle_multipart_flow_stats (mpRun st frags swid) last swid).switch_flows swid =
      (frags.map MPReply.body).flatten ++ last.body ∧
    (handle_multipart_flow_stats (mpRun st frags swid) last swid).replies_flows swid =
      none ∧
    (handle_multipart_flow_stats (mpRun st frags swid) last swid).replies_xids swid =
      none := by
  obtain ⟨h1, h2, h3⟩ := mpRun_odd swid X frags st hfr hx
  have hx' : (mpRun st frags swid).replies_xids swid = some X := by rw [h1]; exact hx
  have hours : is_multipart_reply_ours (mpRun st frags swid) last swid = true := by
    simp [is_multipart_reply_ours, hx', hlx]
  have heven : (last.flags % 2 == 0) = true := by
    rw [hlf]; rfl
  rw [hacc] at h3
  simp only [Option.getD_none, List.nil_append] at h3
  rw [handle_multipart_flow_stats, if_pos hours, heven]
  refine ⟨?_, ?_, ?_⟩ <;> simp [update_switch_flows, h3]


/-- C4 witness: two "more" fragments then a terminal one, xid 42. -/
theorem C4_multipart_finalize_witness :
    (handle_multipart_flow_stats
        (mpRun ⟨fun _ => some 42, fun _ => none, fun _ => []⟩
          [⟨42, 1, [10, 11]⟩, ⟨42, 3, [12]⟩] "sw1") ⟨42, 0, [13]⟩ "sw1").switch_flows
        "sw1" = [10, 11, 12, 13] ∧
    (handle_multipart_flow_stats
        (mpRun ⟨fun _ => some 42, fun _ => none, fun _ => []⟩
          [⟨42, 1, [10, 11]⟩, ⟨42, 3, [12]⟩] "sw1") ⟨42, 0, [13]⟩ "sw1").replies_xids
        "sw1" = none := by
  have h := C4_multipart_finalize (α := Nat)
    ⟨fun _ => some 42, fun _ => none, fun _ => []⟩ "sw1" 42
    [⟨42, 1, [10, 11]⟩, ⟨42, 3, [12]⟩] ⟨42, 0, [13]⟩
    (by decide) rfl rfl rfl rfl
  exact ⟨h.1, h.2.2⟩


/-- C5: a fragment whose xid is not the recorded outstanding xid for the
switch (in particular when no xid is recorded at all) leaves the whole
state untouched — the accumulator, the xid record and the switch's flow
list; the handler returns normally (it is a total function, no error). -/
theorem C5_stale_fragment {α : Type} (st : MPState α) (r : MPReply α) (swid : String)
    (h : ∀ X, st.replies_xids swid = some X → X ≠ r.xid) :
    handle_multipart_flow_stats st r swid = st := by
  have hours : is_multipart_reply_ours st r swid = false := by
    rw [is_multipart_reply_ours]
    cases hx : st.replies_xids swid with
    | none => rfl
    | some sent =>
      have := h sent hx
      simp [this]
  rw [handle_multipart_flow_stats, if_neg (by rw [hours]; exact Bool.false_ne_true)]


/-- C5 witness: a stale fragment (xid 7 against recorded 42) and a
fragment for a switch with no record are both dropped. -/
theorem C5_stale_fragment_witness :
    handle_multipart_flow_stats (α := Nat)
      ⟨fun s => if s = "sw1" then some 42 else none, fun _ => none, fun _ => []⟩
      ⟨7, 0, [99]⟩ "sw1" =
      ⟨fun s => if s = "sw1" then some 42 else none, fun _ => none, fun _ => []⟩ ∧
    handle_multipart_flow_stats (α := Nat)
      ⟨fun s => if s = "sw1" then some 42 else none, fun _ => none, fun _ => []⟩
      ⟨7, 0, [99]⟩ "sw2" =
      ⟨fun s => if s = "sw1" then some 42 else none, fun _ => none, fun _ => []⟩ := by
  constructor
  · refine C5_stale_fragment _ _ _ ?_
    intro X hX
    simp at hX
    subst hX
    decide
  · refine C5_stale_fragment _ _ _ ?_
    intro X hX
    simp at hX


/-! ### Inverses of the decimal rendering -/

theorem fuelDecCore_acc (fuel : Nat) :
    ∀ (n : Nat) (acc : List Char),
    fuelDecCore fuel n acc = fuelDecCore fuel n [] ++ acc := by
  induction fuel with
  | zero => intro n acc; rfl
  | succ k ih =>
    intro n acc
    rw [fuelDecCore, fuelDecCore]
    by_cases h : n < 10
    · simp [h]
    · simp only [if_neg h]
      rw [ih (n / 10), ih (n / 10) [Char.ofNat ('0'.toNat + n % 10)]]
      simp


theorem fuelDecCore_ne_nil (fuel n : Nat) (h : 0 < fuel) :
    fuelDecCore fuel n [] ≠ [] := by
  cases fuel with
  | zero => omega
  | succ k =>
    rw [fuelDecCore]
    by_cases hn : n < 10
    · simp [hn]
    · simp only [if_neg hn]
      rw [fuelDecCore_acc]
      simp


theorem decFold_append (xs ys : List Char) (acc : Nat) :
    decFold (xs ++ ys) acc =
      match decFold xs acc with
      | some m => decFold ys m
      | none => none := by
  induction xs generalizing acc with
  | nil => simp [decFold]
  | cons c rest ih =>
    rw [List.cons_append, decFold, decFold]
    cases digitVal c with
    | none => rfl
    | some d => exact ih _


theorem digitVal_digitChar (n : Nat) :
    digitVal (Char.ofNat ('0'.toNat + n % 10)) = some (n % 10) := by
  have h : n % 10 < 10 := Nat.mod_lt n (by omega)
  revert h
  generalize n % 10 = k
  revert k
  decide


theorem isDigit_digitChar (n : Nat) :
    (Char.ofNat ('0'.toNat + n % 10)).isDigit = true := by
  have h : n % 10 < 10 := Nat.mod_lt n (by omega)
  revert h; generalize n % 10 = k
  revert k; decide


theorem fuelDecCore_all_digits (fuel : Nat) :
    ∀ (n : Nat) (c : Char), c ∈ fuelDecCore fuel n [] → c.isDigit = true := by
  induction fuel with
  | zero => intro n c h; simp [fuelDecCore] at h
  | succ k ih =>
    intro n c h
    rw [fuelDecCore] at h
    by_cases hn : n < 10
    · simp only [if_pos hn, List.mem_cons, List.not_mem_nil, or_false] at h
      subst h
      exact isDigit_digitChar n
    · simp only [if_neg hn] at h
      rw [fuelDecCore_acc] at h
      rcases List.mem_append.mp h with h | h
      · exact ih _ _ h
      · simp only [List.mem_cons, List.not_mem_nil, or_false] at h
        subst h
        exact isDigit_digitChar n


theorem natDecChars_all_digits {n : Nat} {c : Char} (h : c ∈ natDecChars n) :
    c.isDigit = true :=
  fuelDecCore_all_digits (n + 1) n c h


theorem decFold_fuelDecCore (fuel : Nat) :
    ∀ (n : Nat), n < fuel → ∀ (acc : Nat),
    decFold (fuelDecCore fuel n []) acc =
      some (acc * 10 ^ (fuelDecCore fuel n []).length + n) := by
  induction fuel with
  | zero => omega
  | succ k ih =>
    intro n hn acc
    rw [fuelDecCore]
    by_cases h : n < 10
    · simp only [if_pos h]
      simp only [decFold, digitVal_digitChar n]
      have hmod : n % 10 = n := Nat.mod_eq_of_lt h
      simp [hmod]
    · simp only [if_neg h]
      rw [fuelDecCore_acc]
      have hdiv : n / 10 < k := by
        have h1 : n / 10 < n := Nat.div_lt_self (by omega) (by omega)
        omega
      rw [decFold_append, ih (n / 10) hdiv acc]
      simp only [decFold, digitVal_digitChar n]
      rw [List.length_append]
      refine congrArg some ?_
      have hlen : (fuelDecCore k (n / 10) []).length +
          [Char.ofNat ('0'.toNat + n % 10)].length =
          (fuelDecCore k (n / 10) []).length + 1 := by simp
      rw [hlen, pow_succ]
      have hmod := Nat.div_add_mod n 10
      set L := (fuelDecCore k (n / 10) []).length with hL
      calc (acc * 10 ^ L + n / 10) * 10 + n % 10
          = acc * (10 ^ L * 10) + (n / 10 * 10 + n % 10) := by ring
        _ = acc * (10 ^ L * 10) + n := by omega


/-- Parsing the decimal rendering gives back the number. -/
theorem pyInt_natDecChars (n : Nat) : pyIntOfChars (natDecChars n) = some n := by
  rw [pyIntOfChars, natDecChars]
  have hne : fuelDecCore (n + 1) n [] ≠ [] := fuelDecCore_ne_nil (n + 1) n (by omega)
  rw [if_neg (by simpa [List.isEmpty_iff] using hne)]
  rw [decFold_fuelDecCore (n + 1) n (by omega) 0]
  simp


/-! ### `splitChar` / `joinChar` inverses -/

theorem splitChar_no_sep (sep : Char) (cs : List Char) (h : sep ∉ cs) :
    splitChar sep cs = [cs] := by
  induction cs with
  | nil => rfl
  | cons c rest ih =>
    rw [splitChar]
    have hc : ¬(c = sep) := fun hc => h (hc ▸ List.mem_cons_self c rest)
    rw [if_neg hc, ih (fun hm => h (List.mem_cons_of_mem c hm))]


theorem splitChar_append_sep (sep : Char) (a b : List Char) (ha : sep ∉ a) :
    splitChar sep (a ++ sep :: b) = a :: splitChar sep b := by
  induction a with
  | nil => simp [splitChar]
  | cons c rest ih =>
    rw [List.cons_append, splitChar]
    have hc : ¬(c = sep) := fun hc => ha (hc ▸ List.mem_cons_self c rest)
    rw [if_neg hc, ih (fun hm => ha (List.mem_cons_of_mem c hm))]


/-! ### C7: unknown tags -/

theorem find?_oxm_none {x : Nat}
    (h : x ∉ matchFieldClasses.map fun c => c.oxm_field) :
    matchFieldClasses.find? (fun c => c.oxm_field == x) = none := by
  rw [List.find?_eq_none]
  intro c hc
  simp only [beq_iff_eq]
  intro hq
  exact h (hq ▸ List.mem_map_of_mem _ hc)


theorem find?_name_none {x : String}
    (h : x ∉ matchFieldClasses.map fun c => c.name) :
    matchFieldClasses.find? (fun c => c.name == x) = none := by
  rw [List.find?_eq_none]
  intro c hc
  simp only [beq_iff_eq]
  intro hq
  exact h (hq ▸ List.mem_map_of_mem _ hc)


/-- C7 (counterexample): the claim asserts that an unrecognized
`action_type` yields no action "rather than a hard failure"; but
`ActionFactoryBase.from_dict` indexes `cls._action_class[action_type]`,
so with the `v0x04` action dictionary the unknown tag `'foo'` raises
`KeyError` instead of returning `None`. -/
theorem C7_counterexample :
    Action04Factory_from_dict [("action_type", FVal.s "foo")] = PyResult.keyError ∧
    Action04Factory_from_dict [("action_type", FVal.s "foo")] ≠ PyResult.ok none := by
  decide


/-- C7 (amended): decoding a TLV with an unrecognized wire identifier
yields no field and the rest of the match is still processed; encoding
an unrecognized field name yields no field object and the rest of the
match is still encoded; the `v0x01` action factory yields no action for
an unrecognized `action_type`; the `v0x04` factory
(`ActionFactoryBase.from_dict`) instead raises `KeyError` there. -/
theorem C7_unknown_skipped :
    (∀ tlv : OxmTLV, tlv.oxm_field ∉ (matchFieldClasses.map fun c => c.oxm_field) →
      MatchFieldFactory_from_of_tlv tlv = .skipped) ∧
    (∀ (ts1 ts2 : List OxmTLV) (tlv : OxmTLV),
      tlv.oxm_field ∉ (matchFieldClasses.map fun c => c.oxm_field) →
      Match04_from_of_match (ts1 ++ tlv :: ts2) = Match04_from_of_match (ts1 ++ ts2)) ∧
    (∀ (name : String) (v : MVal), name ∉ (matchFieldClasses.map fun c => c.name) →
      MatchFieldFactory_from_name name v = none) ∧
    (∀ (fs1 fs2 : List (String × MVal)) (name : String) (v : MVal),
      name ∉ (matchFieldClasses.map fun c => c.name) →
      Match04_as_of_match (fs1 ++ (name, v) :: fs2) = Match04_as_of_match (fs1 ++ fs2)) ∧
    (∀ (d : ActionDict) (av : FVal), dictGet d "action_type" = some av →
      av ≠ FVal.s "output" → av ≠ FVal.s "set_vlan" →
      Action01_from_dict d = .ok none) ∧
    (∀ (d : ActionDict) (av : FVal), dictGet d "action_type" = some av →
      av ≠ FVal.s "output" → av ≠ FVal.s "set_vlan" →
      av ≠ FVal.s "push_vlan" → av ≠ FVal.s "pop_vlan" →
      Action04Factory_from_dict d = .keyError) := by
  have hskip : ∀ tlv : OxmTLV,
      tlv.oxm_field ∉ (matchFieldClasses.map fun c => c.oxm_field) →
      MatchFieldFactory_from_of_tlv tlv = .skipped := by
    intro tlv h
    rw [MatchFieldFactory_from_of_tlv, find?_oxm_none h]
  have hname : ∀ (name : String) (v : MVal),
      name ∉ (matchFieldClasses.map fun c => c.name) →
      MatchFieldFactory_from_name name v = none := by
    intro name v h
    rw [MatchFieldFactory_from_name, find?_name_none h]
  refine ⟨hskip, ?_, hname, ?_, ?_, ?_⟩
  · intro ts1 ts2 tlv h
    induction ts1 with
    | nil =>
      rw [List.nil_append, List.nil_append, Match04_from_of_match, hskip tlv h]
    | cons t ts ih =>
      rw [List.cons_append, List.cons_append, Match04_from_of_match,
        Match04_from_of_match]
      cases MatchFieldFactory_from_of_tlv t with
      | skipped => exact ih
      | errored => rfl
      | field f => rw [ih]
  · intro fs1 fs2 name v h
    induction fs1 with
    | nil =>
      rw [List.nil_append, List.nil_append, Match04_as_of_match, hname name v h]
    | cons e fs ih =>
      rw [List.cons_append, List.cons_append]
      show Match04_as_of_match ((e.1, e.2) :: (fs ++ (name, v) :: fs2)) =
        Match04_as_of_match ((e.1, e.2) :: (fs ++ fs2))
      rw [Match04_as_of_match, Match04_as_of_match]
      cases MatchFieldFactory_from_name e.1 e.2 with
      | none => exact ih
      | some f => rw [ih]
  · intro d av hget h1 h2
    simp only [Action01_from_dict, hget]
    rw [if_neg h1, if_neg h2]
  · intro d av hget h1 h2 h3 h4
    simp only [Action04Factory_from_dict, hget]
    rw [if_neg h1, if_neg h2, if_neg h3, if_neg h4]


/-- C7 witness: a TLV with the unregistered identifier 60 is skipped
inside a match, the unknown field name and the unknown `v0x01` action
type yield nothing. -/
theorem C7_unknown_skipped_witness :
    MatchFieldFactory_from_of_tlv ⟨60, false, [0]⟩ = DecodeResult.skipped ∧
    Match04_from_of_match [⟨60, false, [0]⟩, ⟨0, false, [0, 0, 0, 1]⟩] =
      Match04_from_of_match [⟨0, false, [0, 0, 0, 1]⟩] ∧
    MatchFieldFactory_from_name "bogus" (.i 1) = none ∧
    Action01_from_dict [("action_type", FVal.s "foo")] = .ok none := by
  refine ⟨C7_unknown_skipped.1 ⟨60, false, [0]⟩ (by decide),
    C7_unknown_skipped.2.1 [] [⟨0, false, [0, 0, 0, 1]⟩] ⟨60, false, [0]⟩ (by decide),
    C7_unknown_skipped.2.2.1 "bogus" (.i 1) (by decide),
    C7_unknown_skipped.2.2.2.2.1 [("action_type", FVal.s "foo")] (FVal.s "foo")
      (by decide) (by decide) (by decide)⟩


/-! ### Token-level facts for the address and integer codecs -/

theorem joinChar_cons (sep : Char) (t : List Char) (ts : List (List Char))
    (h : ts ≠ []) : joinChar sep (t :: ts) = t ++ sep :: joinChar sep ts := by
  cases ts with
  | nil => exact absurd rfl h
  | cons t' ts' => rfl


theorem mem_joinChar {sep c : Char} :
    ∀ {ts : List (List Char)}, c ∈ joinChar sep ts → (∃ t ∈ ts, c ∈ t) ∨ c = sep := by
  intro ts
  induction ts with
  | nil => intro h; simp [joinChar] at h
  | cons t ts ih =>
    intro h
    cases ts with
    | nil =>
      left
      exact ⟨t, List.mem_cons_self t [], by simpa [joinChar] using h⟩
    | cons t' ts' =>
      rw [joinChar_cons sep t (t' :: ts') (by simp)] at h
      rcases List.mem_append.mp h with h | h
      · left; exact ⟨t, List.mem_cons_self t (t' :: ts'), h⟩
      · rcases List.mem_cons.mp h with h | h
        · right; exact h
        · rcases ih h with ⟨u, hu, hcu⟩ | h
          · left; exact ⟨u, List.mem_cons_of_mem t hu, hcu⟩
          · right; exact h


theorem splitChar_joinChar (sep : Char) :
    ∀ (ts : List (List Char)), ts ≠ [] → (∀ t ∈ ts, sep ∉ t) →
    splitChar sep (joinChar sep ts) = ts := by
  intro ts
  induction ts with
  | nil => intro h; exact absurd rfl h
  | cons t ts ih =>
    intro _ hsep
    cases ts with
    | nil =>
      show splitChar sep t = [t]
      exact splitChar_no_sep sep t (hsep t (List.mem_cons_self t []))
    | cons t' ts' =>
      rw [joinChar_cons sep t (t' :: ts') (by simp)]
      rw [splitChar_append_sep sep t _ (hsep t (List.mem_cons_self t (t' :: ts')))]
      rw [ih (by simp) fun u hu => hsep u (List.mem_cons_of_mem t hu)]


theorem joinChar_ne_nil (sep : Char) (t : List Char) (ts : List (List Char))
    (h : t ≠ []) : joinChar sep (t :: ts) ≠ [] := by
  cases ts with
  | nil => exact h
  | cons t' ts' =>
    rw [joinChar_cons sep t (t' :: ts') (by simp)]
    intro hc
    rcases List.append_eq_nil.mp hc with ⟨_, h2⟩
    cases h2


theorem map_toUpper_joinChar :
    ∀ (ts : List (List Char)),
    (joinChar ':' ts).map Char.toUpper =
      joinChar ':' (ts.map (List.map Char.toUpper)) := by
  intro ts
  induction ts with
  | nil => rfl
  | cons t ts ih =>
    cases ts with
    | nil => rfl
    | cons t' ts' =>
      rw [joinChar_cons ':' t (t' :: ts') (by simp), List.map_append, List.map_cons, ih]
      have hc : Char.toUpper ':' = ':' := by decide
      rw [hc]
      simp only [List.map_cons]
      rw [joinChar_cons ':' (t.map Char.toUpper)
        (t'.map Char.toUpper :: List.map (List.map Char.toUpper) ts') (by simp)]


theorem parseTokens_map {p : List Char → Option Nat} {f : Nat → List Char} :
    ∀ (bs : List Nat), (∀ b ∈ bs, p (f b) = some b) →
    parseTokens p (bs.map f) = some bs := by
  intro bs
  induction bs with
  | nil => intro _; rfl
  | cons b bs ih =>
    intro h
    rw [List.map_cons, parseTokens, h b (List.mem_cons_self b bs),
      ih fun x hx => h x (List.mem_cons_of_mem b hx)]
    rfl


theorem pyHex_byteHex : ∀ b, b < 256 → pyHexOfChars (byteHex b) = some b := by decide


theorem pyHex_upper_byteHex :
    ∀ b, b < 256 → pyHexOfChars ((byteHex b).map Char.toUpper) = some b := by decide


theorem colon_not_mem_byteHex : ∀ b, b < 256 → ':' ∉ byteHex b := by decide


theorem colon_not_mem_upper_byteHex :
    ∀ b, b < 256 → ':' ∉ (byteHex b).map Char.toUpper := by decide


theorem slash_not_mem_byteHex : ∀ b, b < 256 → '/' ∉ byteHex b := by decide


theorem upper_byteHex_eq_FF :
    ∀ b, b < 256 → ((byteHex b).map Char.toUpper = ['F', 'F'] ↔ b = 255) := by decide


theorem natDecChars_ne_nil (n : Nat) : natDecChars n ≠ [] :=
  fuelDecCore_ne_nil (n + 1) n (by omega)


theorem not_mem_natDecChars {c : Char} (h : c.isDigit = false) (n : Nat) :
    c ∉ natDecChars n := fun hm => by
  have := natDecChars_all_digits hm
  rw [this] at h
  cases h


theorem decFold_natDecChars (n acc : Nat) :
    decFold (natDecChars n) acc = some (acc * 10 ^ (natDecChars n).length + n) :=
  decFold_fuelDecCore (n + 1) n (by omega) acc


theorem toList_slash_concat (x y : String) :
    (x ++ "/" ++ y).toList = x.toList ++ '/' :: y.toList := by
  show ((x ++ "/" ++ y).data = x.data ++ '/' :: y.data)
  rw [String.data_append, String.data_append]
  simp


theorem pyIntOfChars_slash (v : Nat) (rest : List Char) :
    pyIntOfChars (natDecChars v ++ '/' :: rest) = none := by
  rw [pyIntOfChars]
  rw [if_neg (by
    intro h
    rw [List.isEmpty_iff, List.append_eq_nil] at h
    exact natDecChars_ne_nil v h.1)]
  rw [decFold_append, decFold_natDecChars]
  have hd : digitVal '/' = none := by decide
  simp [decFold, hd]


/-! ### Round trips of the integer fields -/

theorem toBytesBE_take (w v : Nat) : (toBytesBE w v).take w = toBytesBE w v :=
  List.take_of_length_le (le_of_eq (toBytesBE_length w v))


theorem toBytesBE_drop (w v : Nat) : (toBytesBE w v).drop w = [] := by
  have h : (toBytesBE w v).length ≤ w := le_of_eq (toBytesBE_length w v)
  exact List.drop_eq_nil_of_le h


theorem take_bytes_append (w : Nat) (vb mb : List Nat) (h : vb.length = w) :
    (vb ++ mb).take w = vb := by
  rw [← h]
  exact List.take_left vb mb


theorem drop_bytes_append (w : Nat) (vb mb : List Nat) (h : vb.length = w) :
    (vb ++ mb).drop w = mb := by
  rw [← h]
  exact List.drop_left vb mb


theorem splitChar_slash_pair (a b : List Char) (ha : '/' ∉ a) (hb : '/' ∉ b) :
    splitChar '/' (a ++ '/' :: b) = [a, b] := by
  rw [splitChar_append_sep '/' a b ha, splitChar_no_sep '/' b hb]


theorem maskedInt_roundtrip_int (field w v : Nat) (hv : v < 256 ^ w) :
    (maskedIntToTlv field w (.i v)).map (maskedIntFromTlv w) = some (.i v) := by
  have hb : pyToBytes w v = some (toBytesBE w v) := by rw [pyToBytes, if_pos hv]
  simp only [maskedIntToTlv, pyInt, hb, Option.map_some']
  rw [maskedIntFromTlv]
  simp only [Bool.false_eq_true, if_false, toBytesBE_take]
  rw [fromBytesBE_toBytesBE w v hv]


theorem maskedInt_roundtrip_mask (field w v m : Nat) (hv : v < 256 ^ w)
    (hm : m < 256 ^ w) :
    (maskedIntToTlv field w (.s (natDecStr v ++ "/" ++ natDecStr m))).map
        (maskedIntFromTlv w) =
      some (.s (natDecStr v ++ "/" ++ natDecStr m)) := by
  have hpy : pyInt (.s (natDecStr v ++ "/" ++ natDecStr m)) = none := by
    rw [pyInt, toList_slash_concat]
    exact pyIntOfChars_slash v _
  have hsplit : splitChar '/' ((natDecStr v ++ "/" ++ natDecStr m).toList) =
      [natDecChars v, natDecChars m] := by
    rw [toList_slash_concat]
    exact splitChar_slash_pair _ _ (not_mem_natDecChars (by decide) v)
      (not_mem_natDecChars (by decide) m)
  have hvb : pyToBytes w v = some (toBytesBE w v) := by rw [pyToBytes, if_pos hv]
  have hmb : pyToBytes w m = some (toBytesBE w m) := by rw [pyToBytes, if_pos hm]
  simp only [maskedIntToTlv, hpy, hsplit, pyInt_natDecChars, hvb, hmb,
    Option.bind_eq_bind, Option.some_bind]
  by_cases hm0 : m = 0
  · subst hm0
    rw [if_neg fun h => h rfl]
    simp only [Option.pure_def, Option.map_some']
    rw [maskedIntFromTlv]
    simp only [if_pos rfl, toBytesBE_take, toBytesBE_drop]
    rw [fromBytesBE_toBytesBE w v hv]
    rfl
  · rw [if_pos hm0]
    simp only [Option.bind_eq_bind, Option.some_bind, Option.pure_def,
      Option.map_some']
    rw [maskedIntFromTlv]
    simp only [if_pos rfl,
      take_bytes_append w _ _ (toBytesBE_length w v),
      drop_bytes_append w _ _ (toBytesBE_length w v)]
    rw [fromBytesBE_toBytesBE w v hv, fromBytesBE_toBytesBE w m hm]
    rfl


theorem vlan_or_eq (v : Nat) (hv : v < 4096) : v ||| 4096 = v + 4096 := by
  have h := Nat.mul_add_lt_is_or (i := 12) (b := v) (by omega) 1
  calc v ||| 4096 = 4096 ||| v := Nat.lor_comm v 4096
    _ = 2 ^ 12 * 1 ||| v := by norm_num
    _ = 2 ^ 12 * 1 + v := h.symm
    _ = v + 4096 := by norm_num; omega


theorem vlan_or_lt (v : Nat) (hv : v < 4096) : v ||| 4096 < 65536 := by
  rw [vlan_or_eq v hv]; omega


theorem vlan_or_and (v : Nat) (hv : v < 4096) : (v ||| 4096) &&& 4095 = v := by
  rw [vlan_or_eq v hv]
  have h4095 : (4095 : Nat) = 2 ^ 12 - 1 := by norm_num
  rw [h4095, Nat.and_pow_two_sub_one_eq_mod]
  omega


theorem dlvlan_roundtrip_int (v : Nat) (hv : v < 4096) :
    (MatchDLVLAN_as_of_tlv (.i v)).map MatchDLVLAN_from_of_tlv = some (.i v) := by
  have hlt : v ||| OFPVID_PRESENT < 256 ^ 2 := by
    show v ||| 4096 < 256 ^ 2
    have := vlan_or_lt v hv
    omega
  have hb : pyToBytes 2 (v ||| OFPVID_PRESENT) =
      some (toBytesBE 2 (v ||| OFPVID_PRESENT)) := by rw [pyToBytes, if_pos hlt]
  simp only [MatchDLVLAN_as_of_tlv, pyInt, hb, Option.map_some']
  rw [MatchDLVLAN_from_of_tlv]
  simp only [Bool.false_eq_true, if_false, toBytesBE_take]
  rw [fromBytesBE_toBytesBE 2 _ hlt]
  show some (MVal.i ((v ||| 4096) &&& 4095)) = some (MVal.i v)
  rw [vlan_or_and v hv]


theorem dlvlan_roundtrip_mask (v m : Nat) (hv : v < 4096) (hm : m < 4096) :
    (MatchDLVLAN_as_of_tlv (.s (natDecStr v ++ "/" ++ natDecStr m))).map
        MatchDLVLAN_from_of_tlv =
      some (.s (natDecStr v ++ "/" ++ natDecStr m)) := by
  have hpy : pyInt (.s (natDecStr v ++ "/" ++ natDecStr m)) = none := by
    rw [pyInt, toList_slash_concat]
    exact pyIntOfChars_slash v _
  have hsplit : splitChar '/' ((natDecStr v ++ "/" ++ natDecStr m).toList) =
      [natDecChars v, natDecChars m] := by
    rw [toList_slash_concat]
    exact splitChar_slash_pair _ _ (not_mem_natDecChars (by decide) v)
      (not_mem_natDecChars (by decide) m)
  have hvlt : v ||| OFPVID_PRESENT < 256 ^ 2 := by
    show v ||| 4096 < 256 ^ 2
    have := vlan_or_lt v hv
    omega
  have hvb : pyToBytes 2 (v ||| OFPVID_PRESENT) =
      some (toBytesBE 2 (v ||| OFPVID_PRESENT)) := by rw [pyToBytes, if_pos hvlt]
  simp only [MatchDLVLAN_as_of_tlv, hpy, hsplit, pyInt_natDecChars, hvb,
    Option.bind_eq_bind, Option.some_bind]
  by_cases hm0 : m = 0
  · subst hm0
    rw [if_neg fun h => h rfl]
    simp only [Option.pure_def, Option.map_some']
    rw [MatchDLVLAN_from_of_tlv]
    simp only [if_pos rfl, toBytesBE_take, toBytesBE_drop]
    rw [fromBytesBE_toBytesBE 2 _ hvlt]
    show some (MVal.s (natDecStr ((v ||| 4096) &&& 4095) ++ "/" ++
      natDecStr (fromBytesBE [] &&& 4095))) = some (MVal.s (natDecStr v ++ "/" ++ natDecStr 0))
    rw [vlan_or_and v hv]
    rfl
  · have hmlt : m ||| OFPVID_PRESENT < 256 ^ 2 := by
      show m ||| 4096 < 256 ^ 2
      have := vlan_or_lt m hm
      omega
    have hmb : pyToBytes 2 (m ||| OFPVID_PRESENT) =
        some (toBytesBE 2 (m ||| OFPVID_PRESENT)) := by rw [pyToBytes, if_pos hmlt]
    rw [if_pos hm0]
    simp only [hmb, Option.bind_eq_bind, Option.some_bind, Option.pure_def,
      Option.map_some']
    rw [MatchDLVLAN_from_of_tlv]
    simp only [if_pos rfl,
      take_bytes_append 2 _ _ (toBytesBE_length 2 _),
      drop_bytes_append 2 _ _ (toBytesBE_length 2 _)]
    rw [fromBytesBE_toBytesBE 2 _ hvlt, fromBytesBE_toBytesBE 2 _ hmlt]
    show some (MVal.s (natDecStr ((v ||| 4096) &&& 4095) ++ "/" ++
      natDecStr ((m ||| 4096) &&& 4095))) = some (MVal.s (natDecStr v ++ "/" ++ natDecStr m))
    rw [vlan_or_and v hv, vlan_or_and m hm]


/-! ### Round trips of the MAC-address fields -/

theorem macPack_join (f : Nat → List Char) (bs : List Nat)
    (hlen : bs.length = 6)
    (hsep : ∀ b ∈ bs, ':' ∉ f b)
    (hparse : ∀ b ∈ bs, pyHexOfChars (f b) = some b)
    (hbound : ∀ b ∈ bs, b < 256) :
    macPack (joinChar ':' (bs.map f)) = some bs := by
  simp only [macPack]
  rw [splitChar_joinChar ':' (bs.map f)
    (by
      intro h
      rw [List.map_eq_nil_iff] at h
      subst h
      simp at hlen)
    (by
      intro t ht
      obtain ⟨b, hbm, rfl⟩ := List.mem_map.mp ht
      exact hsep b hbm)]
  rw [List.length_map, hlen, if_pos rfl, parseTokens_map bs hparse]
  simp only [Option.bind_eq_bind, Option.some_bind]
  have hall : bs.all (· < 256) = true := by
    rw [List.all_eq_true]
    intro b hbm
    exact decide_eq_true (hbound b hbm)
  rw [hall, if_pos rfl]


theorem macPack_macChars (bs : List Nat) (hlen : bs.length = 6)
    (hbound : ∀ b ∈ bs, b < 256) : macPack (macChars bs) = some bs :=
  macPack_join byteHex bs hlen
    (fun b hb => colon_not_mem_byteHex b (hbound b hb))
    (fun b hb => pyHex_byteHex b (hbound b hb)) hbound


theorem slash_not_mem_macChars (bs : List Nat) (hbound : ∀ b ∈ bs, b < 256) :
    '/' ∉ macChars bs := by
  intro hm
  rcases mem_joinChar hm with ⟨t, ht, hct⟩ | h
  · obtain ⟨b, hbm, rfl⟩ := List.mem_map.mp ht
    exact slash_not_mem_byteHex b (hbound b hbm) hct
  · exact absurd h (by decide)


theorem macChars_ne_nil (ms : List Nat) (h : ms ≠ []) : macChars ms ≠ [] := by
  cases ms with
  | nil => exact absurd rfl h
  | cons m rest =>
    rw [macChars, List.map_cons]
    exact joinChar_ne_nil ':' (byteHex m) _ (by simp [byteHex])


theorem map_upper_eq_replicate :
    ∀ (ms : List Nat) (k : Nat), (∀ b ∈ ms, b < 256) →
    ms.map (fun b => List.map Char.toUpper (byteHex b)) = List.replicate k ['F', 'F'] →
    ms = List.replicate k 255 := by
  intro ms
  induction ms with
  | nil =>
    intro k _ h
    cases k with
    | zero => rfl
    | succ k' => rw [List.replicate_succ] at h; cases h
  | cons m ms ih =>
    intro k hb h
    cases k with
    | zero => cases h
    | succ k' =>
      rw [List.map_cons, List.replicate_succ] at h
      injection h with h1 h2
      rw [List.replicate_succ,
        (upper_byteHex_eq_FF m (hb m (List.mem_cons_self m ms))).mp h1,
        ih k' (fun b hbm => hb b (List.mem_cons_of_mem m hbm)) h2]


theorem upper_macChars_ne_allones (ms : List Nat) (hml : ms.length = 6)
    (hmb : ∀ b ∈ ms, b < 256) (hne : ms ≠ List.replicate 6 255) :
    (macChars ms).map Char.toUpper ≠ allOnesMac := by
  intro h
  apply hne
  rw [macChars, map_toUpper_joinChar, List.map_map] at h
  have h2 := congrArg (splitChar ':') h
  rw [splitChar_joinChar ':' _
    (by
      intro hq
      rw [List.map_eq_nil_iff] at hq
      subst hq
      simp at hml)
    (by
      intro t ht
      obtain ⟨b, hbm, rfl⟩ := List.mem_map.mp ht
      exact colon_not_mem_upper_byteHex b (hmb b hbm))] at h2
  have h3 : splitChar ':' allOnesMac = List.replicate 6 (['F', 'F']) := by decide
  rw [h3] at h2
  exact map_upper_eq_replicate ms 6 hmb h2


theorem mac_roundtrip_plain (field : Nat) (bs : List Nat) (hlen : bs.length = 6)
    (hbound : ∀ b ∈ bs, b < 256) :
    (macToTlv field (.s (macStr bs))).map macFromTlv = some (.s (macStr bs)) := by
  have htl : (macStr bs).toList = macChars bs := rfl
  simp only [macToTlv, htl]
  rw [if_neg (slash_not_mem_macChars bs hbound),
    macPack_macChars bs hlen hbound]
  simp only [Option.map_some']
  rw [macFromTlv]
  simp only [Bool.false_eq_true, if_false]
  rw [List.take_of_length_le (le_of_eq hlen)]


theorem mac_roundtrip_mask (field : Nat) (bs ms : List Nat)
    (hlen : bs.length = 6) (hbound : ∀ b ∈ bs, b < 256)
    (hml : ms.length = 6) (hmb : ∀ b ∈ ms, b < 256)
    (hne : ms ≠ List.replicate 6 255) :
    (macToTlv field (.s (macStr bs ++ "/" ++ macStr ms))).map macFromTlv =
      some (.s (macStr bs ++ "/" ++ macStr ms)) := by
  have htl : (macStr bs ++ "/" ++ macStr ms).toList =
      macChars bs ++ '/' :: macChars ms := toList_slash_concat _ _
  simp only [macToTlv, htl]
  rw [if_pos (List.mem_append.mpr (Or.inr (List.mem_cons_self '/' _)))]
  simp only [splitChar_slash_pair (macChars bs) (macChars ms)
    (slash_not_mem_macChars bs hbound) (slash_not_mem_macChars ms hmb)]
  rw [if_neg (upper_macChars_ne_allones ms hml hmb hne)]
  rw [macPack_macChars bs hlen hbound]
  have hmask_join : (macChars ms).map Char.toUpper =
      joinChar ':' (ms.map fun b => List.map Char.toUpper (byteHex b)) := by
    rw [macChars, map_toUpper_joinChar, List.map_map]
    rfl
  have hempty : ((macChars ms).map Char.toUpper).isEmpty = false := by
    rw [List.isEmpty_eq_false_iff_exists_mem]
    have : macChars ms ≠ [] := macChars_ne_nil ms (by
      intro h
      subst h
      simp at hml)
    cases hmc : macChars ms with
    | nil => exact absurd hmc this
    | cons c cs => exact ⟨Char.toUpper c, by simp⟩
  simp only [Option.bind_eq_bind, Option.some_bind]
  rw [if_neg (by rw [hempty]; exact Bool.false_ne_true)]
  rw [hmask_join, macPack_join _ ms hml
    (fun b hb => colon_not_mem_upper_byteHex b (hmb b hb))
    (fun b hb => pyHex_upper_byteHex b (hmb b hb)) hmb]
  simp only [Option.bind_eq_bind, Option.some_bind, Option.pure_def, Option.map_some']
  rw [macFromTlv]
  simp only [if_pos rfl, if_true,
    take_bytes_append 6 _ _ hlen, drop_bytes_append 6 _ _ hlen,
    List.take_of_length_le (le_of_eq hml)]


/-! ### Round trips of the IPv4-address fields -/

theorem slash_not_mem_ipv4Chars (bs : List Nat) : '/' ∉ ipv4Chars bs := by
  intro hm
  rcases mem_joinChar hm with ⟨t, ht, hct⟩ | h
  · obtain ⟨b, _, rfl⟩ := List.mem_map.mp ht
    exact not_mem_natDecChars (by decide) b hct
  · exact absurd h (by decide)


theorem ipv4Pack_chars (bs : List Nat) (hlen : bs.length = 4)
    (hbound : ∀ b ∈ bs, b < 256) : ipv4Pack (ipv4Chars bs) = some bs := by
  simp only [ipv4Pack, ipv4Chars]
  rw [splitChar_joinChar '.' (bs.map natDecChars)
    (by
      intro h
      rw [List.map_eq_nil_iff] at h
      subst h
      simp at hlen)
    (by
      intro t ht
      obtain ⟨b, _, rfl⟩ := List.mem_map.mp ht
      exact not_mem_natDecChars (by decide) b)]
  rw [List.length_map, hlen, if_pos rfl,
    parseTokens_map bs fun b _ => pyInt_natDecChars b]
  simp only [Option.bind_eq_bind, Option.some_bind]
  have hall : bs.all (· < 256) = true := by
    rw [List.all_eq_true]
    intro b hbm
    exact decide_eq_true (hbound b hbm)
  rw [hall, if_pos rfl]


theorem ipv4_roundtrip_plain (field : Nat) (bs : List Nat) (hlen : bs.length = 4)
    (hbound : ∀ b ∈ bs, b < 256) :
    (ipv4ToTlv field (.s (ipv4Str bs))).bind ipv4FromTlv =
      some (.s (ipv4Str bs)) := by
  have htl : (ipv4Str bs).toList = ipv4Chars bs := rfl
  have hparse : ipv4Parse (ipv4Chars bs) = some (bs, 32) := by
    simp only [ipv4Parse, splitChar_no_sep '/' (ipv4Chars bs) (slash_not_mem_ipv4Chars bs),
      ipv4Pack_chars bs hlen hbound, Option.map_some']
  simp only [ipv4ToTlv, htl, hparse, Option.bind_eq_bind, Option.some_bind]
  rw [if_neg (by omega : ¬(32 < 32))]
  simp only [Option.pure_def, Option.some_bind]
  rw [ipv4FromTlv]
  simp only [Bool.false_eq_true, if_false]
  rw [List.take_of_length_le (le_of_eq hlen)]


theorem ipv4_roundtrip_mask (field : Nat) (bs : List Nat) (n : Nat)
    (hlen : bs.length = 4) (hbound : ∀ b ∈ bs, b < 256) (hn : n < 32) :
    (ipv4ToTlv field (.s (ipv4Str bs ++ "/" ++ natDecStr n))).bind ipv4FromTlv =
      some (.s (ipv4Str bs ++ "/" ++ natDecStr n)) := by
  have htl : (ipv4Str bs ++ "/" ++ natDecStr n).toList =
      ipv4Chars bs ++ '/' :: natDecChars n := toList_slash_concat _ _
  have hparse : ipv4Parse (ipv4Chars bs ++ '/' :: natDecChars n) = some (bs, n) := by
    simp only [ipv4Parse,
      splitChar_slash_pair (ipv4Chars bs) (natDecChars n)
        (slash_not_mem_ipv4Chars bs) (not_mem_natDecChars (by decide) n),
      ipv4Pack_chars bs hlen hbound, pyInt_natDecChars,
      Option.bind_eq_bind, Option.some_bind, Option.pure_def]
  simp only [ipv4ToTlv, htl, hparse, Option.bind_eq_bind, Option.some_bind]
  rw [if_pos hn]
  simp only [Option.pure_def, Option.some_bind]
  rw [ipv4FromTlv]
  simp only [if_pos rfl, if_true,
    drop_bytes_append 4 _ _ hlen]
  rw [mask_bytes_roundtrip 32 n (Or.inl rfl) (by omega)]
  simp only [Option.map_some']
  rw [take_bytes_append 4 _ _ hlen]


/-! ### Round trips of the plain integer fields -/

theorem int_roundtrip (field w v : Nat) (hv : v < 256 ^ w) :
    (intToTlv field w (.i v)).map intFromTlv = some (.i v) := by
  simp only [intToTlv]
  rw [pyToBytes, if_pos hv]
  simp only [Option.map_some', intFromTlv]
  rw [fromBytesBE_toBytesBE w v hv]


/-! ### Minimal-hex rendering parses back (for the IPv6 groups) -/

theorem hexMinCore_acc (fuel : Nat) :
    ∀ (n : Nat) (acc : List Char),
    hexMinCore fuel n acc = hexMinCore fuel n [] ++ acc := by
  induction fuel with
  | zero => intro n acc; rfl
  | succ k ih =>
    intro n acc
    simp only [hexMinCore]
    by_cases h : n < 16
    · simp [h]
    · simp only [if_neg h]
      rw [ih (n / 16), ih (n / 16) [hexDigit (n % 16)]]
      simp


theorem hexMinCore_ne_nil (fuel n : Nat) (h : 0 < fuel) :
    hexMinCore fuel n [] ≠ [] := by
  cases fuel with
  | zero => omega
  | succ k =>
    simp only [hexMinCore]
    by_cases hn : n < 16
    · simp [hn]
    · simp only [if_neg hn]
      rw [hexMinCore_acc]
      simp


theorem hexFold_append (xs ys : List Char) (acc : Nat) :
    hexFold (xs ++ ys) acc =
      match hexFold xs acc with
      | some m => hexFold ys m
      | none => none := by
  induction xs generalizing acc with
  | nil => simp [hexFold]
  | cons c rest ih =>
    rw [List.cons_append, hexFold, hexFold]
    cases hexVal c with
    | none => rfl
    | some d => exact ih _


theorem hexVal_hexDigit (n : Nat) :
    hexVal (hexDigit (n % 16)) = some (n % 16) := by
  have h : n % 16 < 16 := Nat.mod_lt n (by omega)
  revert h
  generalize n % 16 = k
  revert k
  decide


theorem hexVal_hexDigit_isSome (n : Nat) :
    (hexVal (hexDigit (n % 16))).isSome = true := by
  rw [hexVal_hexDigit]
  rfl


theorem hexMinCore_all_hex (fuel : Nat) :
    ∀ (n : Nat) (c : Char), c ∈ hexMinCore fuel n [] → (hexVal c).isSome = true := by
  induction fuel with
  | zero => intro n c h; simp [hexMinCore] at h
  | succ k ih =>
    intro n c h
    simp only [hexMinCore] at h
    by_cases hn : n < 16
    · simp only [if_pos hn, List.mem_cons, List.not_mem_nil, or_false] at h
      subst h
      exact hexVal_hexDigit_isSome n
    · simp only [if_neg hn] at h
      rw [hexMinCore_acc] at h
      rcases List.mem_append.mp h with h | h
      · exact ih _ _ h
      · simp only [List.mem_cons, List.not_mem_nil, or_false] at h
        subst h
        exact hexVal_hexDigit_isSome n


theorem not_mem_hexMinChars {c : Char} (h : hexVal c = none) (n : Nat) :
    c ∉ hexMinChars n := by
  intro hm
  have hs := hexMinCore_all_hex (n + 1) n c hm
  rw [h] at hs
  simp at hs


theorem hexFold_hexMinCore (fuel : Nat) :
    ∀ (n : Nat), n < fuel → ∀ (acc : Nat),
    hexFold (hexMinCore fuel n []) acc =
      some (acc * 16 ^ (hexMinCore fuel n []).length + n) := by
  induction fuel with
  | zero => omega
  | succ k ih =>
    intro n hn acc
    simp only [hexMinCore]
    by_cases h : n < 16
    · simp only [if_pos h]
      simp only [hexFold, hexVal_hexDigit n]
      have hmod : n % 16 = n := Nat.mod_eq_of_lt h
      simp [hmod]
    · simp only [if_neg h]
      rw [hexMinCore_acc]
      have hdiv : n / 16 < k := by
        have h1 : n / 16 < n := Nat.div_lt_self (by omega) (by omega)
        omega
      rw [hexFold_append, ih (n / 16) hdiv acc]
      simp only [hexFold, hexVal_hexDigit n]
      rw [List.length_append]
      refine congrArg some ?_
      have hlen : (hexMinCore k (n / 16) []).length + [hexDigit (n % 16)].length =
          (hexMinCore k (n / 16) []).length + 1 := by simp
      rw [hlen, pow_succ]
      have hmod := Nat.div_add_mod n 16
      set L := (hexMinCore k (n / 16) []).length with hL
      calc (acc * 16 ^ L + n / 16) * 16 + n % 16
          = acc * (16 ^ L * 16) + (n / 16 * 16 + n % 16) := by ring
        _ = acc * (16 ^ L * 16) + n := by omega


/-- Parsing the minimal hex rendering gives back the number. -/
theorem pyHex_hexMinChars (n : Nat) : pyHexOfChars (hexMinChars n) = some n := by
  rw [pyHexOfChars, hexMinChars]
  have hne : hexMinCore (n + 1) n [] ≠ [] := hexMinCore_ne_nil (n + 1) n (by omega)
  rw [if_neg (by simpa [List.isEmpty_iff] using hne)]
  rw [hexFold_hexMinCore (n + 1) n (by omega) 0]
  simp


/-! ### Round trips of the IPv6-address fields -/

theorem bytePairs_all_lt : ∀ (bs : List Nat) (_ : ∀ b ∈ bs, b < 256),
    ∀ g ∈ bytePairs bs, g < 65536
  | [], _, g, hg => by simp [bytePairs] at hg
  | [a], hb, g, hg => by
    simp only [bytePairs, List.mem_cons, List.not_mem_nil, or_false] at hg
    have ha := hb a (by simp)
    omega
  | a :: b :: rest, hb, g, hg => by
    simp only [bytePairs, List.mem_cons] at hg
    rcases hg with rfl | hg
    · have ha := hb a (by simp)
      have hbb := hb b (by simp)
      omega
    · exact bytePairs_all_lt rest (fun x hx => hb x (by simp [hx])) g hg


theorem unpairs_bytePairs : ∀ (bs : List Nat), bs.length % 2 = 0 →
    (∀ b ∈ bs, b < 256) →
    ((bytePairs bs).map fun g => [g / 256, g % 256]).flatten = bs
  | [], _, _ => rfl
  | [a], h, _ => by simp at h
  | a :: b :: rest, h, hb => by
    simp only [bytePairs, List.map_cons, List.flatten_cons]
    have ha : a < 256 := hb a (by simp)
    have hbb : b < 256 := hb b (by simp)
    have h1 : (a * 256 + b) / 256 = a := by omega
    have h2 : (a * 256 + b) % 256 = b := by omega
    rw [h1, h2,
      unpairs_bytePairs rest (by simp only [List.length_cons] at h; omega)
        (fun x hx => hb x (by simp [hx]))]
    rfl


theorem bytePairs_length_even : ∀ (bs : List Nat), bs.length % 2 = 0 →
    (bytePairs bs).length = bs.length / 2
  | [], _ => rfl
  | [a], h => by simp at h
  | a :: b :: rest, h => by
    simp only [bytePairs, List.length_cons]
    rw [bytePairs_length_even rest (by simp only [List.length_cons] at h; omega)]
    omega


theorem slash_not_mem_ipv6Chars (bs : List Nat) : '/' ∉ ipv6Chars bs := by
  intro hm
  rcases mem_joinChar hm with ⟨t, ht, hct⟩ | h
  · obtain ⟨g, _, rfl⟩ := List.mem_map.mp ht
    exact not_mem_hexMinChars (by decide) g hct
  · exact absurd h (by decide)


theorem ipv6Pack_chars (bs : List Nat) (hlen : bs.length = 16)
    (hbound : ∀ b ∈ bs, b < 256) : ipv6Pack (ipv6Chars bs) = some bs := by
  simp only [ipv6Pack, ipv6Chars]
  have hlen8 : ((bytePairs bs).map hexMinChars).length = 8 := by
    rw [List.length_map, bytePairs_length_even bs (by omega), hlen]
  rw [splitChar_joinChar ':' ((bytePairs bs).map hexMinChars)
    (by intro hnil; rw [hnil] at hlen8; simp at hlen8)
    (by
      intro t ht
      obtain ⟨g, _, rfl⟩ := List.mem_map.mp ht
      exact not_mem_hexMinChars (by decide) g)]
  rw [if_pos hlen8]
  rw [parseTokens_map (bytePairs bs) fun g _ => pyHex_hexMinChars g]
  simp only [Option.bind_eq_bind, Option.some_bind]
  have hall : (bytePairs bs).all (· < 65536) = true := by
    rw [List.all_eq_true]
    intro g hg
    exact decide_eq_true (bytePairs_all_lt bs hbound g hg)
  rw [hall, if_pos rfl]
  rw [unpairs_bytePairs bs (by omega) hbound]


theorem ipv6_roundtrip_plain (field : Nat) (bs : List Nat) (hlen : bs.length = 16)
    (hbound : ∀ b ∈ bs, b < 256) :
    (ipv6ToTlv field (.s (ipv6Str bs))).bind ipv6FromTlv =
      some (.s (ipv6Str bs)) := by
  have htl : (ipv6Str bs).toList = ipv6Chars bs := rfl
  have hparse : ipv6Parse (ipv6Chars bs) = some (bs, 128) := by
    simp only [ipv6Parse, splitChar_no_sep '/' (ipv6Chars bs) (slash_not_mem_ipv6Chars bs),
      ipv6Pack_chars bs hlen hbound, Option.map_some']
  simp only [ipv6ToTlv, htl, hparse, Option.bind_eq_bind, Option.some_bind]
  rw [if_neg (by omega : ¬(128 < 128))]
  simp only [Option.pure_def, Option.some_bind]
  rw [ipv6FromTlv]
  simp only [Bool.false_eq_true, if_false]
  rw [List.take_of_length_le (le_of_eq hlen)]


theorem ipv6_roundtrip_mask (field : Nat) (bs : List Nat) (n : Nat)
    (hlen : bs.length = 16) (hbound : ∀ b ∈ bs, b < 256) (hn : n < 128) :
    (ipv6ToTlv field (.s (ipv6Str bs ++ "/" ++ natDecStr n))).bind ipv6FromTlv =
      some (.s (ipv6Str bs ++ "/" ++ natDecStr n)) := by
  have htl : (ipv6Str bs ++ "/" ++ natDecStr n).toList =
      ipv6Chars bs ++ '/' :: natDecChars n := toList_slash_concat _ _
  have hparse : ipv6Parse (ipv6Chars bs ++ '/' :: natDecChars n) = some (bs, n) := by
    simp only [ipv6Parse,
      splitChar_slash_pair (ipv6Chars bs) (natDecChars n)
        (slash_not_mem_ipv6Chars bs) (not_mem_natDecChars (by decide) n),
      ipv6Pack_chars bs hlen hbound, pyInt_natDecChars,
      Option.bind_eq_bind, Option.some_bind, Option.pure_def]
  simp only [ipv6ToTlv, htl, hparse, Option.bind_eq_bind, Option.some_bind]
  rw [if_pos hn]
  simp only [Option.pure_def, Option.some_bind]
  rw [ipv6FromTlv]
  simp only [if_pos rfl, if_true,
    drop_bytes_append 16 _ _ hlen]
  rw [mask_bytes_roundtrip 128 n (Or.inr rfl) (by omega)]
  simp only [Option.map_some']
  rw [take_bytes_append 16 _ _ hlen]


/-! ### C2 and C6 -/

/-- C2: encode/decode round trip for every registered field kind on
canonical values — VLAN id in range with or without a mask; the 24
plain fixed-width integer fields on in-range values; the five maskable
integer fields (`metadata`, `tun_id` at 8 bytes, `ipv6_flabel` at 4,
`pbb_isid` at 3, `v6_hdr` at 2) with in-range value and mask; the four
MAC-address fields with or without a non-all-ones mask; the four
IPv4-address fields and the two IPv6-address fields with or without a
proper prefix mask.  `from_of_tlv (as_of_tlv v)` reproduces the value
and the mask presence exactly. -/
theorem C2_tlv_roundtrip :
    (∀ v : Nat, v < 4096 →
      (MatchDLVLAN_as_of_tlv (.i v)).map MatchDLVLAN_from_of_tlv = some (.i v)) ∧
    (∀ v m : Nat, v < 4096 → m < 4096 →
      (MatchDLVLAN_as_of_tlv (.s (natDecStr v ++ "/" ++ natDecStr m))).map
        MatchDLVLAN_from_of_tlv = some (.s (natDecStr v ++ "/" ++ natDecStr m))) ∧
    (∀ (name : String) (w : Nat),
      (name, w) ∈ [("dl_vlan_pcp", 1), ("dl_type", 2), ("nw_proto", 1),
        ("in_port", 4), ("tp_src", 2), ("tp_dst", 2), ("in_phy_port", 4),
        ("ip_dscp", 1), ("ip_ecn", 1), ("udp_src", 2), ("udp_dst", 2),
        ("sctp_src", 2), ("sctp_dst", 2), ("icmpv4_type", 1),
        ("icmpv4_code", 1), ("arp_op", 2), ("mpls_lab", 4), ("mpls_tc", 1),
        ("mpls_bos", 1), ("icmpv6_type", 1), ("icmpv6_code", 1),
        ("nd_tar", 16), ("nd_sll", 6), ("nd_tll", 6)] →
      ∀ v : Nat, v < 256 ^ w →
      (intToTlv (OXM_OFB name) w (.i v)).map intFromTlv = some (.i v)) ∧
    (∀ (name : String) (w : Nat),
      (name, w) ∈ [("metadata", 8), ("tun_id", 8), ("ipv6_flabel", 4),
        ("pbb_isid", 3), ("v6_hdr", 2)] →
      ∀ v m : Nat, v < 256 ^ w → m < 256 ^ w →
      (maskedIntToTlv (OXM_OFB name) w (.i v)).map (maskedIntFromTlv w) =
          some (.i v) ∧
        (maskedIntToTlv (OXM_OFB name) w (.s (natDecStr v ++ "/" ++ natDecStr m))).map
          (maskedIntFromTlv w) = some (.s (natDecStr v ++ "/" ++ natDecStr m))) ∧
    (∀ name ∈ ["dl_src", "dl_dst", "arp_sha", "arp_tha"],
      ∀ bs : List Nat, bs.length = 6 → (∀ b ∈ bs, b < 256) →
      (macToTlv (OXM_OFB name) (.s (macStr bs))).map macFromTlv =
        some (.s (macStr bs))) ∧
    (∀ name ∈ ["dl_src", "dl_dst", "arp_sha", "arp_tha"],
      ∀ bs ms : List Nat, bs.length = 6 → (∀ b ∈ bs, b < 256) →
      ms.length = 6 → (∀ b ∈ ms, b < 256) → ms ≠ List.replicate 6 255 →
      (macToTlv (OXM_OFB name) (.s (macStr bs ++ "/" ++ macStr ms))).map
        macFromTlv = some (.s (macStr bs ++ "/" ++ macStr ms))) ∧
    (∀ name ∈ ["nw_src", "nw_dst", "arp_spa", "arp_tpa"],
      ∀ bs : List Nat, bs.length = 4 → (∀ b ∈ bs, b < 256) →
      (ipv4ToTlv (OXM_OFB name) (.s (ipv4Str bs))).bind ipv4FromTlv =
        some (.s (ipv4Str bs))) ∧
    (∀ name ∈ ["nw_src", "nw_dst", "arp_spa", "arp_tpa"],
      ∀ (bs : List Nat) (n : Nat), bs.length = 4 → (∀ b ∈ bs, b < 256) → n < 32 →
      (ipv4ToTlv (OXM_OFB name) (.s (ipv4Str bs ++ "/" ++ natDecStr n))).bind
        ipv4FromTlv = some (.s (ipv4Str bs ++ "/" ++ natDecStr n))) ∧
    (∀ name ∈ ["ipv6_src", "ipv6_dst"],
      ∀ bs : List Nat, bs.length = 16 → (∀ b ∈ bs, b < 256) →
      (ipv6ToTlv (OXM_OFB name) (.s (ipv6Str bs))).bind ipv6FromTlv =
        some (.s (ipv6Str bs))) ∧
    (∀ name ∈ ["ipv6_src", "ipv6_dst"],
      ∀ (bs : List Nat) (n : Nat), bs.length = 16 → (∀ b ∈ bs, b < 256) → n < 128 →
      (ipv6ToTlv (OXM_OFB name) (.s (ipv6Str bs ++ "/" ++ natDecStr n))).bind
        ipv6FromTlv = some (.s (ipv6Str bs ++ "/" ++ natDecStr n))) := by
  refine ⟨dlvlan_roundtrip_int, dlvlan_roundtrip_mask, ?_, ?_,
    fun name _ => mac_roundtrip_plain (OXM_OFB name),
    fun name _ => mac_roundtrip_mask (OXM_OFB name),
    fun name _ => ipv4_roundtrip_plain (OXM_OFB name),
    fun name _ => ipv4_roundtrip_mask (OXM_OFB name),
    fun name _ => ipv6_roundtrip_plain (OXM_OFB name),
    fun name _ => ipv6_roundtrip_mask (OXM_OFB name)⟩
  · intro name w _ v hv
    exact int_roundtrip (OXM_OFB name) w v hv
  · intro name w _ v m hv hm
    exact ⟨maskedInt_roundtrip_int (OXM_OFB name) w v hv,
      maskedInt_roundtrip_mask (OXM_OFB name) w v m hv hm⟩


/-- C2 witness: one concrete value per kind. -/
theorem C2_tlv_roundtrip_witness :
    (MatchDLVLAN_as_of_tlv (.i 300)).map MatchDLVLAN_from_of_tlv = some (.i 300) ∧
    (MatchDLVLAN_as_of_tlv (.s "300/4095")).map MatchDLVLAN_from_of_tlv =
      some (.s "300/4095") ∧
    (intToTlv (OXM_OFB "in_port") 4 (.i 5)).map intFromTlv = some (.i 5) ∧
    (intToTlv (OXM_OFB "dl_type") 2 (.i 2048)).map intFromTlv = some (.i 2048) ∧
    (maskedIntToTlv (OXM_OFB "metadata") 8 (.s "5/0")).map (maskedIntFromTlv 8) =
      some (.s "5/0") ∧
    (maskedIntToTlv (OXM_OFB "tun_id") 8 (.i 77)).map (maskedIntFromTlv 8) =
      some (.i 77) ∧
    (maskedIntToTlv (OXM_OFB "ipv6_flabel") 4 (.s "9/3")).map (maskedIntFromTlv 4) =
      some (.s "9/3") ∧
    (maskedIntToTlv (OXM_OFB "pbb_isid") 3 (.i 12)).map (maskedIntFromTlv 3) =
      some (.i 12) ∧
    (maskedIntToTlv (OXM_OFB "v6_hdr") 2 (.s "3/1")).map (maskedIntFromTlv 2) =
      some (.s "3/1") ∧
    (macToTlv (OXM_OFB "dl_src") (.s "01:02:03:04:05:ff")).map macFromTlv =
      some (.s "01:02:03:04:05:ff") ∧
    (macToTlv (OXM_OFB "dl_dst") (.s "01:02:03:04:05:ff/ff:ff:00:00:00:00")).map
      macFromTlv = some (.s "01:02:03:04:05:ff/ff:ff:00:00:00:00") ∧
    (ipv4ToTlv (OXM_OFB "nw_src") (.s "192.168.0.1")).bind ipv4FromTlv =
      some (.s "192.168.0.1") ∧
    (ipv4ToTlv (OXM_OFB "nw_dst") (.s "10.0.0.0/8")).bind ipv4FromTlv =
      some (.s "10.0.0.0/8") ∧
    (ipv6ToTlv (OXM_OFB "ipv6_src") (.s "0:0:0:0:0:0:0:1")).bind ipv6FromTlv =
      some (.s "0:0:0:0:0:0:0:1") ∧
    (ipv6ToTlv (OXM_OFB "ipv6_dst") (.s "0:0:0:0:0:0:0:1/64")).bind ipv6FromTlv =
      some (.s "0:0:0:0:0:0:0:1/64") := by
  obtain ⟨h1, h2, h3, h4, h5, h6, h7, h8, h9, h10⟩ := C2_tlv_roundtrip
  refine ⟨h1 300 (by decide), ?_, h3 "in_port" 4 (by decide) 5 (by decide),
    h3 "dl_type" 2 (by decide) 2048 (by decide), ?_, ?_, ?_, ?_, ?_, ?_, ?_, ?_, ?_,
    ?_, ?_⟩
  · have h := h2 300 4095 (by decide) (by decide)
    rwa [show natDecStr 300 ++ "/" ++ natDecStr 4095 = "300/4095" by decide] at h
  · have h := (h4 "metadata" 8 (by decide) 5 0 (by decide) (by decide)).2
    rwa [show natDecStr 5 ++ "/" ++ natDecStr 0 = "5/0" by decide] at h
  · exact (h4 "tun_id" 8 (by decide) 77 0 (by decide) (by decide)).1
  · have h := (h4 "ipv6_flabel" 4 (by decide) 9 3 (by decide) (by decide)).2
    rwa [show natDecStr 9 ++ "/" ++ natDecStr 3 = "9/3" by decide] at h
  · exact (h4 "pbb_isid" 3 (by decide) 12 0 (by decide) (by decide)).1
  · have h := (h4 "v6_hdr" 2 (by decide) 3 1 (by decide) (by decide)).2
    rwa [show natDecStr 3 ++ "/" ++ natDecStr 1 = "3/1" by decide] at h
  · have h := h5 "dl_src" (by decide) [1, 2, 3, 4, 5, 255] (by decide) (by decide)
    rwa [show macStr [1, 2, 3, 4, 5, 255] = "01:02:03:04:05:ff" by decide] at h
  · have h := h6 "dl_dst" (by decide) [1, 2, 3, 4, 5, 255] [255, 255, 0, 0, 0, 0]
      (by decide) (by decide) (by decide) (by decide) (by decide)
    rwa [show macStr [1, 2, 3, 4, 5, 255] ++ "/" ++ macStr [255, 255, 0, 0, 0, 0] =
      "01:02:03:04:05:ff/ff:ff:00:00:00:00" by decide] at h
  · have h := h7 "nw_src" (by decide) [192, 168, 0, 1] (by decide) (by decide)
    rwa [show ipv4Str [192, 168, 0, 1] = "192.168.0.1" by decide] at h
  · have h := h8 "nw_dst" (by decide) [10, 0, 0, 0] 8 (by decide) (by decide) (by decide)
    rwa [show ipv4Str [10, 0, 0, 0] ++ "/" ++ natDecStr 8 = "10.0.0.0/8" by decide] at h
  · have h := h9 "ipv6_src" (by decide)
      [0, 0, 0, 0, 0, 0, 0, 0, 0, 0, 0, 0, 0, 0, 0, 1] (by decide) (by decide)
    rwa [show ipv6Str [0, 0, 0, 0, 0, 0, 0, 0, 0, 0, 0, 0, 0, 0, 0, 1] =
      "0:0:0:0:0:0:0:1" by decide] at h
  · have h := h10 "ipv6_dst" (by decide)
      [0, 0, 0, 0, 0, 0, 0, 0, 0, 0, 0, 0, 0, 0, 0, 1] 64 (by decide) (by decide)
      (by decide)
    rwa [show ipv6Str [0, 0, 0, 0, 0, 0, 0, 0, 0, 0, 0, 0, 0, 0, 0, 1] ++ "/" ++
      natDecStr 64 = "0:0:0:0:0:0:0:1/64" by decide] at h


/-- C6: an all-ones MAC mask (in any letter case) is elided — the TLV
has the has-mask flag clear and carries only the six address bytes; and
decoding any TLV whose has-mask flag is clear yields the bare address
with no `/` (so never an all-ones mask literal). -/
theorem C6_allones_mask_elision :
    (∀ (bs : List Nat) (ms : List Char), bs.length = 6 → (∀ b ∈ bs, b < 256) →
      ms.map Char.toUpper = allOnesMac →
      macToTlv (OXM_OFB "dl_src") (.s (macStr bs ++ "/" ++ (⟨ms⟩ : String))) =
        some ⟨OXM_OFB "dl_src", false, bs⟩) ∧
    (∀ tlv : OxmTLV, tlv.oxm_hasmask = false → (∀ b ∈ tlv.oxm_value, b < 256) →
      macFromTlv tlv = .s (macStr (tlv.oxm_value.take 6)) ∧
      '/' ∉ (macStr (tlv.oxm_value.take 6)).toList) := by
  constructor
  · intro bs ms hlen hbound hup
    have hms : '/' ∉ ms := by
      intro h
      have h2 : Char.toUpper '/' ∈ ms.map Char.toUpper := List.mem_map_of_mem _ h
      rw [hup] at h2
      exact absurd h2 (by decide)
    have htl : (macStr bs ++ "/" ++ (⟨ms⟩ : String)).toList =
        macChars bs ++ '/' :: ms := toList_slash_concat _ _
    simp only [macToTlv, htl]
    rw [if_pos (List.mem_append.mpr (Or.inr (List.mem_cons_self '/' _)))]
    simp only [splitChar_slash_pair (macChars bs) ms
      (slash_not_mem_macChars bs hbound) hms]
    rw [if_pos hup, macPack_macChars bs hlen hbound]
    rfl
  · intro tlv h hb
    constructor
    · rw [macFromTlv, h]
      simp
    · show '/' ∉ macChars (tlv.oxm_value.take 6)
      exact slash_not_mem_macChars _ fun b hbm =>
        hb b (List.take_subset 6 tlv.oxm_value hbm)


/-- C6 witness: a lowercase all-ones mask is elided on a concrete
address; a concrete unmasked TLV decodes to the bare address. -/
theorem C6_allones_mask_elision_witness :
    macToTlv (OXM_OFB "dl_src") (.s ("01:02:03:04:05:06/" ++ "ff:ff:ff:ff:ff:ff")) =
      some ⟨OXM_OFB "dl_src", false, [1, 2, 3, 4, 5, 6]⟩ ∧
    macFromTlv ⟨OXM_OFB "dl_src", false, [1, 2, 3, 4, 5, 6]⟩ =
      .s "01:02:03:04:05:06" := by
  constructor
  · have h := C6_allones_mask_elision.1 [1, 2, 3, 4, 5, 6]
      "ff:ff:ff:ff:ff:ff".toList (by decide) (by decide) (by decide)
    rwa [show macStr [1, 2, 3, 4, 5, 6] ++ "/" ++
      (⟨"ff:ff:ff:ff:ff:ff".toList⟩ : String) =
      "01:02:03:04:05:06/" ++ "ff:ff:ff:ff:ff:ff" by decide] at h
  · have h := (C6_allones_mask_elision.2 ⟨OXM_OFB "dl_src", false, [1, 2, 3, 4, 5, 6]⟩
      rfl (by decide)).1
    rwa [show macStr ([1, 2, 3, 4, 5, 6].take 6) = "01:02:03:04:05:06" by decide] at h


end OfCore
